import Mathlib

/-!
Verification of the RBAC core of the `autocode` repository: entity store
(users, roles, privileges, many-to-many links with soft deletion), the
privilege evaluator, the credential/token issuer, the token revocation
ledger, the role/privilege graph manager and the user-service cache.

The Python source is embedded shallowly: each ORM table becomes a list of
records inside a `Store`, each repository/service method becomes a Lean
function on `Store` (stateful methods return a new `Store`), database
timestamps become `Nat` seconds, and fallible methods return `Except Err`.
-/

namespace Autocode

/-- Error raised by the Python layers.  `http` mirrors `HTTPException`
(status code and detail), `valueError` the `ValueError` raised by
`RoleRepository._assert_single_super_role`, and `integrityError` the
database error raised when a flush violates a declared unique
constraint (such as `uq_privilege_resource_action`). -/
inductive Err where
  | http (status : Nat) (detail : String)
  | valueError (msg : String)
  | integrityError (constraint : String)
  | multipleResultsFound
deriving DecidableEq, Repr

/-- A row of the `privileges` table (`PrivilegeORM`). -/
structure Privilege where
  id : Nat
  resource : String
  action : String
  description : Option String
  deleted_at : Option Nat
deriving DecidableEq, Repr

/-- A row of the `roles` table (`RoleORM`). -/
structure Role where
  id : Nat
  name : String
  is_superuser : Bool
  deleted_at : Option Nat
deriving DecidableEq, Repr

/-- A row of the `users` table (`UserORM`). -/
structure User where
  id : Nat
  email : String
  hashed_password : String
  is_active : Bool
  is_blocked : Bool
  deleted_at : Option Nat
deriving DecidableEq, Repr

/-- The relational state: the three entity tables, the two pure join
tables `user_roles` and `role_privileges`, and the autoincrement
counters for the primary keys. -/
structure Store where
  users : List User
  roles : List Role
  privileges : List Privilege
  user_roles : List (Nat × Nat)
  role_privileges : List (Nat × Nat)
  nextUserId : Nat
  nextRoleId : Nat
  nextPrivId : Nat
deriving DecidableEq, Repr

/-- The empty database, with autoincrement ids starting at 1. -/
def Store.empty : Store :=
  { users := [], roles := [], privileges := [], user_roles := [],
    role_privileges := [], nextUserId := 1, nextRoleId := 1, nextPrivId := 1 }

namespace UserRepo

/-- `UserRepository.user_is_superuser`: count of joins of the user row
with `user_roles` and non-deleted superuser roles is positive.  The SQL
filters `RoleORM.deleted_at IS NULL` but places no deletion filter on
the user row itself. -/
def user_is_superuser (s : Store) (uid : Nat) : Bool :=
  s.users.any fun u => u.id == uid &&
    s.user_roles.any fun ur => ur.1 == u.id &&
      s.roles.any fun r => r.id == ur.2 && r.is_superuser && r.deleted_at.isNone

/-- `UserRepository.user_has_privilege`: count of joins of the
non-deleted user row with `user_roles`, non-deleted roles,
`role_privileges` and non-deleted privileges matching the requested
`(resource, action)` exactly is positive. -/
def user_has_privilege (s : Store) (uid : Nat) (resource action : String) : Bool :=
  s.users.any fun u => u.id == uid && u.deleted_at.isNone &&
    s.user_roles.any fun ur => ur.1 == u.id &&
      s.roles.any fun r => r.id == ur.2 && r.deleted_at.isNone &&
        s.role_privileges.any fun rp => rp.1 == r.id &&
          s.privileges.any fun p => p.id == rp.2 && p.deleted_at.isNone &&
            p.resource == resource && p.action == action

/-- `UserRepository.get_by_email`: first user with the given email whose
`deleted_at` is NULL (emails are unique, so SQL's `scalar_one_or_none`
matches `find?`). -/
def get_by_email (s : Store) (email : String) : Option User :=
  s.users.find? fun u => u.email == email && u.deleted_at.isNone

/-- `UserRepository.get_by_id`: active-only lookup by id. -/
def get_by_id (s : Store) (uid : Nat) : Option User :=
  s.users.find? fun u => u.id == uid && u.deleted_at.isNone

end UserRepo

/-- The privilege-denied error raised by `AuthService.assert_privilege`. -/
def forbiddenErr (resource action : String) : Err :=
  .http 403 ("Missing privilege " ++ action ++ " on " ++ resource)

namespace AuthService

/-- `AuthService.assert_privilege`: superuser short-circuit, then exact
`(resource, action)` privilege lookup, otherwise HTTP 403. -/
def assert_privilege (s : Store) (uid : Nat) (resource action : String) :
    Except Err Unit :=
  if UserRepo.user_is_superuser s uid then .ok ()
  else if UserRepo.user_has_privilege s uid resource action then .ok ()
  else .error (forbiddenErr resource action)

end AuthService

/-! Specification-level predicates for claim C1, phrased from the spec's
sentences (§4.2) rather than from the code, to be proved equivalent to
the embedded evaluator. -/

/-- Spec §4.2 step 1: the user holds some non-deleted role with
`is_superuser = true`. -/
def SpecSuperuser (s : Store) (uid : Nat) : Prop :=
  ∃ u ∈ s.users, u.id = uid ∧
    ∃ ur ∈ s.user_roles, ur.1 = u.id ∧
      ∃ r ∈ s.roles, r.id = ur.2 ∧ r.is_superuser = true ∧ r.deleted_at = none

/-- Spec §4.2 step 2: the non-deleted user is assigned some non-deleted
role linked to a non-deleted privilege whose `(resource, action)`
matches the request exactly. -/
def SpecHasPrivilege (s : Store) (uid : Nat) (resource action : String) : Prop :=
  ∃ u ∈ s.users, u.id = uid ∧ u.deleted_at = none ∧
    ∃ ur ∈ s.user_roles, ur.1 = u.id ∧
      ∃ r ∈ s.roles, r.id = ur.2 ∧ r.deleted_at = none ∧
        ∃ rp ∈ s.role_privileges, rp.1 = r.id ∧
          ∃ p ∈ s.privileges, p.id = rp.2 ∧ p.deleted_at = none ∧
            p.resource = resource ∧ p.action = action

theorem user_is_superuser_iff (s : Store) (uid : Nat) :
    UserRepo.user_is_superuser s uid = true ↔ SpecSuperuser s uid := by
  simp [UserRepo.user_is_superuser, SpecSuperuser, List.any_eq_true,
    Option.isNone_iff_eq_none]
  tauto

theorem user_has_privilege_iff (s : Store) (uid : Nat) (resource action : String) :
    UserRepo.user_has_privilege s uid resource action = true ↔
      SpecHasPrivilege s uid resource action := by
  simp [UserRepo.user_has_privilege, SpecHasPrivilege, List.any_eq_true,
    Option.isNone_iff_eq_none]
  tauto

/-- C1: `assert_privilege` succeeds when the user holds a non-deleted
superuser role; otherwise it succeeds iff the non-deleted user holds a
non-deleted role carrying a non-deleted privilege matching
`(resource, action)` exactly; otherwise it fails with the Forbidden
(HTTP 403) error. -/
theorem assert_privilege_spec (s : Store) (uid : Nat) (resource action : String) :
    (SpecSuperuser s uid →
        AuthService.assert_privilege s uid resource action = .ok ()) ∧
    (¬ SpecSuperuser s uid →
        (AuthService.assert_privilege s uid resource action = .ok () ↔
          SpecHasPrivilege s uid resource action)) ∧
    (¬ SpecSuperuser s uid → ¬ SpecHasPrivilege s uid resource action →
        AuthService.assert_privilege s uid resource action =
          .error (forbiddenErr resource action)) := by
  refine ⟨?_, ?_, ?_⟩
  · intro h
    rw [← user_is_superuser_iff] at h
    simp [AuthService.assert_privilege, h]
  · intro h
    rw [← user_is_superuser_iff] at h
    simp only [Bool.not_eq_true] at h
    rw [← user_has_privilege_iff]
    by_cases hp : UserRepo.user_has_privilege s uid resource action = true
    · simp [AuthService.assert_privilege, h, hp]
    · simp only [Bool.not_eq_true] at hp
      simp [AuthService.assert_privilege, h, hp]
  · intro h hp
    rw [← user_is_superuser_iff] at h
    rw [← user_has_privilege_iff] at hp
    simp only [Bool.not_eq_true] at h hp
    simp [AuthService.assert_privilege, h, hp]

/-- Witness for C1 at a concrete store: user 1 holds role 1 which
carries privilege 1 = ("users", "read"); reading users is authorized,
and the superuser branch does not apply. -/
theorem assert_privilege_spec_witness :
    (¬ SpecSuperuser
        { users := [⟨1, "a@x", "h", true, false, none⟩],
          roles := [⟨1, "auditor", false, none⟩],
          privileges := [⟨1, "users", "read", none, none⟩],
          user_roles := [(1, 1)], role_privileges := [(1, 1)],
          nextUserId := 2, nextRoleId := 2, nextPrivId := 2 } 1) ∧
    (AuthService.assert_privilege
        { users := [⟨1, "a@x", "h", true, false, none⟩],
          roles := [⟨1, "auditor", false, none⟩],
          privileges := [⟨1, "users", "read", none, none⟩],
          user_roles := [(1, 1)], role_privileges := [(1, 1)],
          nextUserId := 2, nextRoleId := 2, nextPrivId := 2 } 1 "users" "read" = .ok () ↔
      SpecHasPrivilege
        { users := [⟨1, "a@x", "h", true, false, none⟩],
          roles := [⟨1, "auditor", false, none⟩],
          privileges := [⟨1, "users", "read", none, none⟩],
          user_roles := [(1, 1)], role_privileges := [(1, 1)],
          nextUserId := 2, nextRoleId := 2, nextPrivId := 2 } 1 "users" "read") := by
  have hsup : ¬ SpecSuperuser
      { users := [⟨1, "a@x", "h", true, false, none⟩],
        roles := [⟨1, "auditor", false, none⟩],
        privileges := [⟨1, "users", "read", none, none⟩],
        user_roles := [(1, 1)], role_privileges := [(1, 1)],
        nextUserId := 2, nextRoleId := 2, nextPrivId := 2 } 1 := by
    rw [← user_is_superuser_iff]; decide
  exact ⟨hsup,
    (assert_privilege_spec
      { users := [⟨1, "a@x", "h", true, false, none⟩],
        roles := [⟨1, "auditor", false, none⟩],
        privileges := [⟨1, "users", "read", none, none⟩],
        user_roles := [(1, 1)], role_privileges := [(1, 1)],
        nextUserId := 2, nextRoleId := 2, nextPrivId := 2 } 1 "users" "read").2.1 hsup⟩

/-! Role repository (`RoleRepository`) and the graph-manager invariant. -/

/-- The error raised by `RoleRepository._assert_single_super_role`. -/
def superExistsErr : Err := .valueError "A superuser role already exists"

/-- The `sqlalchemy.exc.MultipleResultsFound` error that
`scalar_one_or_none` raises when its query matches two or more rows;
`RoleService` catches only `ValueError`, so this one propagates
distinctly. -/
def multipleResultsErr : Err := .multipleResultsFound

/-- The filter of `_assert_single_super_role`'s query: the superuser
flag is set, optionally excluding one role id; there is NO `deleted_at`
filter, so soft-deleted roles are included. -/
def superPred (exclude_role_id : Option Nat) (r : Role) : Bool :=
  r.is_superuser &&
    (match exclude_role_id with
     | some e => !(r.id == e)
     | none => true)

namespace RoleRepo

/-- `RoleRepository.get_by_name`: active-only lookup by unique name. -/
def get_by_name (s : Store) (name : String) : Option Role :=
  s.roles.find? fun r => r.name == name && r.deleted_at.isNone

/-- `RoleRepository.get_by_id`. -/
def get_by_id (s : Store) (rid : Nat) (include_deleted : Bool) : Option Role :=
  s.roles.find? fun r => r.id == rid && (include_deleted || r.deleted_at.isNone)

/-- `RoleRepository._assert_single_super_role`: select the roles
matching `superPred` (soft-deleted ones included) and call
`scalar_one_or_none` on the result: it yields nothing for zero matches
(the check passes), the row for exactly one match — upon which the
`ValueError` is raised — and itself raises `MultipleResultsFound` for
two or more matches. -/
def assert_single_super_role (s : Store) (exclude_role_id : Option Nat) :
    Except Err Unit :=
  match s.roles.filter (superPred exclude_role_id) with
  | [] => .ok ()
  | [_] => .error superExistsErr
  | _ => .error multipleResultsErr

/-- `RoleRepository.create`: superuser check first (only when the flag
is requested), then the insert; flushing enforces the unique constraint
on `roles.name` over all rows.  Requested privilege ids are resolved
against non-deleted privileges. -/
def create (s : Store) (name : String) (privilege_ids : Option (List Nat))
    (is_superuser : Bool) : Except Err (Store × Nat) :=
  match (if is_superuser then assert_single_super_role s none else .ok ()) with
  | .error e => .error e
  | .ok _ =>
    if s.roles.any (fun r => r.name == name) then
      .error (.integrityError "roles.name")
    else
      let rid := s.nextRoleId
      let linked : List (Nat × Nat) :=
        match privilege_ids with
        | some ids =>
          (s.privileges.filter fun p => ids.contains p.id && p.deleted_at.isNone).map
            fun p => (rid, p.id)
        | none => []
      .ok ({ s with
              roles := s.roles ++ [⟨rid, name, is_superuser, none⟩],
              role_privileges := s.role_privileges ++ linked,
              nextRoleId := rid + 1 }, rid)

/-- Flushing an updated role row: the unique constraint on `roles.name`
is checked against every other row, then the row with the role's id is
overwritten. -/
def flushRole (s : Store) (newRole : Role) : Except Err Store :=
  if s.roles.any (fun r => !(r.id == newRole.id) && r.name == newRole.name) then
    .error (.integrityError "roles.name")
  else
    .ok { s with roles := s.roles.map fun r => if r.id == newRole.id then newRole else r }

/-- The rename step of `RoleRepository.update_role`: `if name:` applies
only a non-empty new name (Python truthiness). -/
def renamed (role : Role) (name : Option String) : Role :=
  match name with
  | some n => if n == "" then role else { role with name := n }
  | none => role

/-- `RoleRepository.update_role` on a fetched role row: rename only for
a non-empty name (Python truthiness), and change `is_superuser` only
when the requested value differs, running the single-superuser check
(excluding this role's id) before setting the flag to true. -/
def update_role (s : Store) (role : Role) (name : Option String)
    (is_superuser : Option Bool) : Except Err Store :=
  let role1 := renamed role name
  match is_superuser with
  | none => flushRole s role1
  | some b =>
    if b == role.is_superuser then flushRole s role1
    else if b then
      match assert_single_super_role s (some role.id) with
      | .error e => .error e
      | .ok _ => flushRole s { role1 with is_superuser := b }
    else flushRole s { role1 with is_superuser := b }

/-- `RoleRepository.soft_delete`: stamp `deleted_at`. -/
def soft_delete (s : Store) (rid : Nat) (t : Nat) : Store :=
  { s with roles := s.roles.map fun r =>
      if r.id == rid then { r with deleted_at := some t } else r }

/-- `RoleRepository.restore`: clear `deleted_at`. -/
def restore (s : Store) (rid : Nat) : Store :=
  { s with roles := s.roles.map fun r =>
      if r.id == rid then { r with deleted_at := none } else r }

/-- `RoleRepository.hard_delete`: physically remove the row and its
association rows. -/
def hard_delete (s : Store) (rid : Nat) : Store :=
  { s with
    roles := s.roles.filter fun r => !(r.id == rid),
    role_privileges := s.role_privileges.filter fun rp => !(rp.1 == rid),
    user_roles := s.user_roles.filter fun ur => !(ur.2 == rid) }

end RoleRepo

/-- The role operations reachable through `RoleService` (create,
update, soft-delete, restore, hard-delete).  `update` resolves its
target among non-deleted roles and delete/restore among all roles,
matching `RoleService._require_role`; a failing operation rolls back,
leaving the state unchanged, and `restore_role` of a non-deleted role
returns early without writing. -/
inductive RoleOp where
  | create (name : String) (privilege_ids : Option (List Nat)) (is_superuser : Bool)
  | update (rid : Nat) (name : Option String) (is_superuser : Option Bool)
  | softDelete (rid : Nat) (t : Nat)
  | restore (rid : Nat)
  | hardDelete (rid : Nat)
deriving DecidableEq, Repr

/-- One `RoleService` request against the store; errors leave the
store unchanged (transaction rollback). -/
def applyRoleOp (s : Store) : RoleOp → Store
  | .create n p su =>
    match RoleRepo.create s n p su with
    | .ok (s', _) => s'
    | .error _ => s
  | .update rid n su =>
    match RoleRepo.get_by_id s rid false with
    | none => s
    | some role =>
      match RoleRepo.update_role s role n su with
      | .ok s' => s'
      | .error _ => s
  | .softDelete rid t =>
    match RoleRepo.get_by_id s rid true with
    | some _ => RoleRepo.soft_delete s rid t
    | none => s
  | .restore rid =>
    match RoleRepo.get_by_id s rid true with
    | some r => if r.deleted_at.isNone then s else RoleRepo.restore s rid
    | none => s
  | .hardDelete rid =>
    match RoleRepo.get_by_id s rid true with
    | some _ => RoleRepo.hard_delete s rid
    | none => s

/-- Number of roles, soft-deleted included, with `is_superuser = true`. -/
def superRoleCountAll (s : Store) : Nat :=
  s.roles.countP fun r => r.is_superuser

/-- Number of non-deleted roles with `is_superuser = true`. -/
def activeSuperRoleCount (s : Store) : Nat :=
  s.roles.countP fun r => r.is_superuser && r.deleted_at.isNone

/-- Primary-key well-formedness of the `roles` table: ids are pairwise
distinct and below the autoincrement counter. -/
def RolesWF (s : Store) : Prop :=
  (s.roles.map fun r => r.id).Nodup ∧ ∀ r ∈ s.roles, r.id < s.nextRoleId

theorem countP_id_le_one (l : List Role) (rid : Nat)
    (h : (l.map fun r => r.id).Nodup) :
    l.countP (fun r => r.id == rid) ≤ 1 := by
  have h1 : l.countP (fun r => r.id == rid) =
      (l.map fun r => r.id).countP (· == rid) := by
    rw [List.countP_map]; rfl
  rw [h1, ← List.count_eq_countP]
  exact List.nodup_iff_count_le_one.mp h rid

theorem role_eq_of_id_eq {l : List Role} (h : (l.map fun r => r.id).Nodup)
    {a b : Role} (ha : a ∈ l) (hb : b ∈ l) (hid : a.id = b.id) : a = b :=
  List.inj_on_of_nodup_map h ha hb hid

theorem renamed_id (role : Role) (n : Option String) :
    (RoleRepo.renamed role n).id = role.id := by
  cases n with
  | none => rfl
  | some m =>
    unfold RoleRepo.renamed
    by_cases hm : (m == "") = true <;> simp [hm]

theorem renamed_flag (role : Role) (n : Option String) :
    (RoleRepo.renamed role n).is_superuser = role.is_superuser := by
  cases n with
  | none => rfl
  | some m =>
    unfold RoleRepo.renamed
    by_cases hm : (m == "") = true <;> simp [hm]

theorem assert_single_super_role_cases (s : Store) (e? : Option Nat) :
    (RoleRepo.assert_single_super_role s e? = .ok () ↔
      s.roles.countP (superPred e?) = 0) ∧
    (RoleRepo.assert_single_super_role s e? = .error superExistsErr ↔
      s.roles.countP (superPred e?) = 1) ∧
    (RoleRepo.assert_single_super_role s e? = .error multipleResultsErr ↔
      2 ≤ s.roles.countP (superPred e?)) := by
  have hc : s.roles.countP (superPred e?) =
      (s.roles.filter (superPred e?)).length :=
    List.countP_eq_length_filter ..
  unfold RoleRepo.assert_single_super_role
  rw [hc]
  cases hf : s.roles.filter (superPred e?) with
  | nil =>
    simp
  | cons a tl =>
    cases tl with
    | nil =>
      refine ⟨?_, ?_, ?_⟩ <;> simp [superExistsErr, multipleResultsErr]
    | cons b tl2 =>
      refine ⟨?_, ?_, ?_⟩ <;> simp [superExistsErr, multipleResultsErr]

theorem assert_ok_forall {s : Store} {e? : Option Nat} {v : Unit}
    (h : RoleRepo.assert_single_super_role s e? = .ok v) :
    ∀ r ∈ s.roles, superPred e? r = false := by
  cases v
  intro r hr
  have h0 := (assert_single_super_role_cases s e?).1.mp h
  by_contra hc
  rw [Bool.not_eq_false] at hc
  exact (List.countP_eq_zero.mp h0 r hr) hc

theorem create_ok_superCount {s : Store} {n : String} {p : Option (List Nat)}
    {su : Bool} {s' : Store} {rid : Nat}
    (hok : RoleRepo.create s n p su = .ok (s', rid))
    (h : superRoleCountAll s ≤ 1) : superRoleCountAll s' ≤ 1 := by
  unfold RoleRepo.create at hok
  split at hok
  · exact absurd hok (by simp)
  · split at hok
    · exact absurd hok (by simp)
    · rename_i hcheck _
      simp only [Except.ok.injEq, Prod.mk.injEq] at hok
      obtain ⟨hs, -⟩ := hok
      subst hs
      simp only [superRoleCountAll, List.countP_append, List.countP_cons,
        List.countP_nil] at h ⊢
      by_cases hsu : su = true
      · subst hsu
        simp only [if_true] at hcheck ⊢
        have h0 : s.roles.countP (fun r => r.is_superuser) = 0 := by
          apply List.countP_eq_zero.mpr
          intro r hr
          intro hflag
          have hps := assert_ok_forall hcheck r hr
          simp [superPred, hflag] at hps
        omega
      · simp only [Bool.not_eq_true] at hsu
        subst hsu
        simpa using h

theorem map_id_preserving_roles {l : List Role} {f : Role → Role}
    (hf : ∀ r, (f r).id = r.id) :
    ((l.map f).map fun r => r.id) = l.map fun r => r.id := by
  rw [List.map_map]
  exact List.map_congr_left fun r _ => hf r

theorem flushRole_ok_roles {s : Store} {newRole : Role} {s' : Store}
    (hok : RoleRepo.flushRole s newRole = .ok s') :
    s'.roles = s.roles.map (fun r => if r.id == newRole.id then newRole else r) ∧
    s'.nextRoleId = s.nextRoleId ∧ s'.users = s.users ∧
    s'.privileges = s.privileges ∧ s'.user_roles = s.user_roles ∧
    s'.role_privileges = s.role_privileges ∧ s'.nextUserId = s.nextUserId ∧
    s'.nextPrivId = s.nextPrivId := by
  unfold RoleRepo.flushRole at hok
  split at hok
  · exact absurd hok (by simp)
  · simp only [Except.ok.injEq] at hok
    subst hok
    exact ⟨rfl, rfl, rfl, rfl, rfl, rfl, rfl, rfl⟩

theorem update_ok_superCount {s : Store} {role : Role} {n : Option String}
    {su : Option Bool} {s' : Store}
    (hmem : role ∈ s.roles)
    (hnodup : (s.roles.map fun r => r.id).Nodup)
    (hok : RoleRepo.update_role s role n su = .ok s')
    (h : superRoleCountAll s ≤ 1) : superRoleCountAll s' ≤ 1 := by
  -- generic step for a flush whose new row keeps the role's id
  have flushCase : ∀ (newRole : Role), newRole.id = role.id →
      RoleRepo.flushRole s newRole = .ok s' →
      (newRole.is_superuser = role.is_superuser ∨
       newRole.is_superuser = false ∨
       (∀ r ∈ s.roles, r.is_superuser = true → r.id = role.id)) →
      superRoleCountAll s' ≤ 1 := by
    intro newRole hnid hfl hcases
    obtain ⟨hroles, -⟩ := flushRole_ok_roles hfl
    have hmapped : superRoleCountAll s' =
        s.roles.countP (fun r =>
          (if r.id == newRole.id then newRole else r).is_superuser) := by
      rw [superRoleCountAll, hroles, List.countP_map]; rfl
    rcases hcases with hsame | hfalse | hallid
    · rw [hmapped]
      have : s.roles.countP (fun r =>
          (if r.id == newRole.id then newRole else r).is_superuser) =
          superRoleCountAll s := by
        apply List.countP_congr
        intro r hr
        by_cases hrid : r.id == newRole.id
        · have : r = role := role_eq_of_id_eq hnodup hr hmem
            (by rw [hnid] at hrid; exact (by simpa using hrid))
          subst this
          simp [hrid, hsame]
        · simp [hrid]
      rw [this]; exact h
    · rw [hmapped]
      calc s.roles.countP (fun r =>
            (if r.id == newRole.id then newRole else r).is_superuser)
          ≤ s.roles.countP (fun r => r.is_superuser) := by
            apply List.countP_mono_left
            intro r hr hpr
            by_cases hrid : r.id == newRole.id
            · rw [if_pos hrid] at hpr
              rw [hfalse] at hpr
              exact absurd hpr (by simp)
            · rwa [if_neg hrid] at hpr
        _ ≤ 1 := h
    · rw [hmapped]
      by_cases hnb : newRole.is_superuser = true
      · have : s.roles.countP (fun r =>
            (if r.id == newRole.id then newRole else r).is_superuser) =
            s.roles.countP (fun r => r.id == newRole.id) := by
          apply List.countP_congr
          intro r hr
          by_cases hrid : r.id == newRole.id
          · simp [hrid, hnb]
          · simp only [if_neg hrid]
            constructor
            · intro hflag
              have := hallid r hr hflag
              rw [hnid] at hrid
              exact absurd (by simpa using this) (by simpa using hrid)
            · intro hcontra
              exact absurd hcontra (by simpa using hrid)
        rw [this]
        exact countP_id_le_one s.roles newRole.id hnodup
      · simp only [Bool.not_eq_true] at hnb
        calc s.roles.countP (fun r =>
              (if r.id == newRole.id then newRole else r).is_superuser)
            ≤ s.roles.countP (fun r => r.is_superuser) := by
              apply List.countP_mono_left
              intro r hr hpr
              by_cases hrid : r.id == newRole.id
              · rw [if_pos hrid] at hpr
                rw [hnb] at hpr
                exact absurd hpr (by simp)
              · rwa [if_neg hrid] at hpr
          _ ≤ 1 := h
  unfold RoleRepo.update_role at hok
  cases su with
  | none =>
    exact flushCase (RoleRepo.renamed role n) (renamed_id role n) hok
      (Or.inl (renamed_flag role n))
  | some b =>
    simp only at hok
    by_cases hb : (b == role.is_superuser) = true
    · rw [if_pos hb] at hok
      exact flushCase (RoleRepo.renamed role n) (renamed_id role n) hok
        (Or.inl (renamed_flag role n))
    · rw [if_neg hb] at hok
      by_cases hbt : b = true
      · subst hbt
        rw [if_pos rfl] at hok
        split at hok
        · exact absurd hok (by simp)
        · rename_i hcheck
          refine flushCase { RoleRepo.renamed role n with is_superuser := true }
            (renamed_id role n) hok (Or.inr (Or.inr ?_))
          intro r hr hflag
          have hps := assert_ok_forall hcheck r hr
          simp only [superPred, hflag, Bool.true_and] at hps
          simpa using hps
      · simp only [Bool.not_eq_true] at hbt
        subst hbt
        rw [if_neg (by simp)] at hok
        exact flushCase { RoleRepo.renamed role n with is_superuser := false }
          (renamed_id role n) hok (Or.inr (Or.inl rfl))

theorem create_ok_shape {s : Store} {n : String} {p : Option (List Nat)}
    {su : Bool} {s' : Store} {rid : Nat}
    (hok : RoleRepo.create s n p su = .ok (s', rid)) :
    s'.roles = s.roles ++ [⟨s.nextRoleId, n, su, none⟩] ∧
    s'.nextRoleId = s.nextRoleId + 1 := by
  unfold RoleRepo.create at hok
  split at hok
  · exact absurd hok (by simp)
  · split at hok
    · exact absurd hok (by simp)
    · simp only [Except.ok.injEq, Prod.mk.injEq] at hok
      obtain ⟨hs, -⟩ := hok
      subst hs
      exact ⟨rfl, rfl⟩

theorem update_ok_shape {s : Store} {role : Role} {n : Option String}
    {su : Option Bool} {s' : Store}
    (hok : RoleRepo.update_role s role n su = .ok s') :
    ∃ newRole : Role, newRole.id = role.id ∧
      s'.roles = s.roles.map (fun r => if r.id == newRole.id then newRole else r) ∧
      s'.nextRoleId = s.nextRoleId := by
  unfold RoleRepo.update_role at hok
  cases su with
  | none =>
    obtain ⟨h1, h2, -⟩ := flushRole_ok_roles hok
    exact ⟨RoleRepo.renamed role n, renamed_id role n, h1, h2⟩
  | some b =>
    simp only at hok
    by_cases hb : (b == role.is_superuser) = true
    · rw [if_pos hb] at hok
      obtain ⟨h1, h2, -⟩ := flushRole_ok_roles hok
      exact ⟨RoleRepo.renamed role n, renamed_id role n, h1, h2⟩
    · rw [if_neg hb] at hok
      by_cases hbt : b = true
      · subst hbt
        rw [if_pos rfl] at hok
        split at hok
        · exact absurd hok (by simp)
        · obtain ⟨h1, h2, -⟩ := flushRole_ok_roles hok
          exact ⟨{ RoleRepo.renamed role n with is_superuser := true },
            renamed_id role n, h1, h2⟩
      · simp only [Bool.not_eq_true] at hbt
        subst hbt
        rw [if_neg (by simp)] at hok
        obtain ⟨h1, h2, -⟩ := flushRole_ok_roles hok
        exact ⟨{ RoleRepo.renamed role n with is_superuser := false },
          renamed_id role n, h1, h2⟩

theorem rolesWF_map_id_preserving {s s' : Store} {f : Role → Role}
    (hf : ∀ r, (f r).id = r.id)
    (hroles : s'.roles = s.roles.map f) (hnext : s'.nextRoleId = s.nextRoleId)
    (hwf : RolesWF s) : RolesWF s' := by
  obtain ⟨hnd, hb⟩ := hwf
  constructor
  · rw [hroles, map_id_preserving_roles hf]
    exact hnd
  · intro r hr
    rw [hroles] at hr
    obtain ⟨r0, hr0, hfr⟩ := List.mem_map.mp hr
    rw [hnext, ← hfr, hf r0]
    exact hb r0 hr0

theorem superCountAll_map_flag_preserving {s s' : Store} {f : Role → Role}
    (hf : ∀ r, (f r).is_superuser = r.is_superuser)
    (hroles : s'.roles = s.roles.map f) :
    superRoleCountAll s' = superRoleCountAll s := by
  rw [superRoleCountAll, hroles, List.countP_map, superRoleCountAll]
  apply List.countP_congr
  intro r _
  simp [Function.comp, hf r]

theorem applyRoleOp_wf (s : Store) (op : RoleOp) (hwf : RolesWF s) :
    RolesWF (applyRoleOp s op) := by
  obtain ⟨hnd, hb⟩ := hwf
  cases op with
  | create n p su =>
    simp only [applyRoleOp]
    split
    · rename_i s' rid hok
      obtain ⟨hroles, hnext⟩ := create_ok_shape hok
      constructor
      · rw [hroles, List.map_append]
        rw [List.nodup_append]
        refine ⟨hnd, by simp, ?_⟩
        intro a ha
        obtain ⟨r0, hr0, hfr⟩ := List.mem_map.mp ha
        simp only [List.map_cons, List.map_nil, List.mem_cons,
          List.not_mem_nil, or_false]
        intro hcontra
        have hcontra' : a = s.nextRoleId := hcontra
        have := hb r0 hr0
        omega
      · intro r hr
        rw [hroles] at hr
        rw [hnext]
        rcases List.mem_append.mp hr with hin | hin
        · have := hb r hin; omega
        · simp only [List.mem_singleton] at hin
          subst hin
          show s.nextRoleId < s.nextRoleId + 1
          omega
    · exact ⟨hnd, hb⟩
  | update rid n su =>
    simp only [applyRoleOp]
    split
    · exact ⟨hnd, hb⟩
    · rename_i role hfind
      split
      · rename_i s' hok
        obtain ⟨newRole, hnid, hroles, hnext⟩ := update_ok_shape hok
        refine rolesWF_map_id_preserving ?_ hroles hnext ⟨hnd, hb⟩
        intro r
        by_cases hr : r.id = newRole.id
        · simp [hr]
        · simp [hr]
      · exact ⟨hnd, hb⟩
  | softDelete rid t =>
    simp only [applyRoleOp]
    split
    · refine rolesWF_map_id_preserving ?_ rfl rfl ⟨hnd, hb⟩
      intro r
      by_cases hr : (r.id == rid) = true <;> simp [hr]
    · exact ⟨hnd, hb⟩
  | restore rid =>
    simp only [applyRoleOp]
    split
    · rename_i r hfind
      split
      · exact ⟨hnd, hb⟩
      · refine rolesWF_map_id_preserving ?_ rfl rfl ⟨hnd, hb⟩
        intro r0
        by_cases hr : (r0.id == rid) = true <;> simp [hr]
    · exact ⟨hnd, hb⟩
  | hardDelete rid =>
    simp only [applyRoleOp]
    split
    · constructor
      · exact List.Nodup.sublist
          ((List.filter_sublist s.roles).map fun r => r.id) hnd
      · intro r hr
        exact hb r (List.mem_of_mem_filter hr)
    · exact ⟨hnd, hb⟩

theorem applyRoleOp_superCount (s : Store) (op : RoleOp) (hwf : RolesWF s)
    (h : superRoleCountAll s ≤ 1) :
    superRoleCountAll (applyRoleOp s op) ≤ 1 := by
  cases op with
  | create n p su =>
    simp only [applyRoleOp]
    split
    · rename_i s' rid hok
      exact create_ok_superCount hok h
    · exact h
  | update rid n su =>
    simp only [applyRoleOp]
    split
    · exact h
    · rename_i role hfind
      split
      · rename_i s' hok
        have hmem : role ∈ s.roles := by
          have := List.find?_some hfind
          exact List.mem_of_find?_eq_some hfind
        exact update_ok_superCount hmem hwf.1 hok h
      · exact h
  | softDelete rid t =>
    simp only [applyRoleOp]
    split
    · rw [@superCountAll_map_flag_preserving s (RoleRepo.soft_delete s rid t)
        (fun r => if r.id == rid then { r with deleted_at := some t } else r)
        ?_ rfl]
      · exact h
      · intro r
        by_cases hr : (r.id == rid) = true <;> simp [hr]
    · exact h
  | restore rid =>
    simp only [applyRoleOp]
    split
    · rename_i r hfind
      split
      · exact h
      · rw [@superCountAll_map_flag_preserving s (RoleRepo.restore s rid)
          (fun r0 => if r0.id == rid then { r0 with deleted_at := none } else r0)
          ?_ rfl]
        · exact h
        · intro r0
          by_cases hr : (r0.id == rid) = true <;> simp [hr]
    · exact h
  | hardDelete rid =>
    simp only [applyRoleOp]
    split
    · calc superRoleCountAll (RoleRepo.hard_delete s rid)
          ≤ superRoleCountAll s :=
            List.Sublist.countP_le _ (List.filter_sublist s.roles)
      _ ≤ 1 := h
    · exact h

theorem activeSuper_le_superAll (s : Store) :
    activeSuperRoleCount s ≤ superRoleCountAll s := by
  apply List.countP_mono_left
  intro r _ hpr
  exact (Bool.and_eq_true _ _ |>.mp hpr).1

theorem foldl_roleOps_wf (s : Store) (ops : List RoleOp) (hwf : RolesWF s) :
    RolesWF (ops.foldl applyRoleOp s) := by
  induction ops generalizing s with
  | nil => exact hwf
  | cons op ops ih => exact ih (applyRoleOp s op) (applyRoleOp_wf s op hwf)

/-- C2 (amended): the claim as stated fails (see the counterexample:
restoring a soft-deleted superuser role can yield a second active
superuser role).  The invariant the code does maintain is stronger on
the roles it counts and stronger in its precondition: starting from a
well-formed state in which at most one role — soft-deleted ones
included — has `is_superuser = true`, every sequence of role
operations (create, update, soft-delete, restore, hard-delete) keeps
at most one role with `is_superuser = true`, and hence at most one
non-deleted such role. -/
theorem role_ops_preserve_single_superuser (s : Store) (ops : List RoleOp)
    (hwf : RolesWF s) (h : superRoleCountAll s ≤ 1) :
    superRoleCountAll (ops.foldl applyRoleOp s) ≤ 1 ∧
    activeSuperRoleCount (ops.foldl applyRoleOp s) ≤ 1 := by
  have hall : superRoleCountAll (ops.foldl applyRoleOp s) ≤ 1 := by
    induction ops generalizing s with
    | nil => exact h
    | cons op ops ih =>
      exact ih (applyRoleOp s op) (applyRoleOp_wf s op hwf)
        (applyRoleOp_superCount s op hwf h)
  exact ⟨hall, le_trans (activeSuper_le_superAll _) hall⟩

/-- Witness for C2 (amended): from the empty store, create a superuser
role, soft-delete it and restore it; at most one active superuser role
remains. -/
theorem role_ops_preserve_single_superuser_witness :
    (RolesWF Store.empty ∧ superRoleCountAll Store.empty ≤ 1) ∧
    activeSuperRoleCount
      ([RoleOp.create "admin" none true, RoleOp.softDelete 1 5,
        RoleOp.restore 1].foldl applyRoleOp Store.empty) ≤ 1 :=
  ⟨⟨by constructor <;> simp [Store.empty], by decide⟩,
    (role_ops_preserve_single_superuser Store.empty
      [RoleOp.create "admin" none true, RoleOp.softDelete 1 5, RoleOp.restore 1]
      ⟨by simp [Store.empty], by simp [Store.empty]⟩ (by decide)).2⟩

/-- C2 as frozen is violated: the state below has exactly one active
superuser role (`admin`) plus a soft-deleted superuser role (`legacy`),
so it satisfies the claim's precondition, yet restoring `legacy` yields
two non-deleted superuser roles. -/
theorem role_ops_single_superuser_counterexample :
    activeSuperRoleCount
      ⟨[], [⟨1, "admin", true, none⟩, ⟨2, "legacy", true, some 5⟩],
        [], [], [], 1, 3, 1⟩ ≤ 1 ∧
    ¬ (activeSuperRoleCount
        (applyRoleOp
          ⟨[], [⟨1, "admin", true, none⟩, ⟨2, "legacy", true, some 5⟩],
            [], [], [], 1, 3, 1⟩ (RoleOp.restore 2)) ≤ 1) := by
  decide

theorem update_role_some_true_eq (s : Store) (role : Role) (nm : Option String)
    (hrole : role.is_superuser = false) :
    RoleRepo.update_role s role nm (some true) =
      (match RoleRepo.assert_single_super_role s (some role.id) with
       | .error e => .error e
       | .ok _ =>
         RoleRepo.flushRole s
           { RoleRepo.renamed role nm with is_superuser := true }) := by
  unfold RoleRepo.update_role
  simp [hrole]

theorem create_super_check (s : Store) (n : String) (p : Option (List Nat)) :
    (RoleRepo.create s n p true = .error superExistsErr ↔
      RoleRepo.assert_single_super_role s none = .error superExistsErr) ∧
    (RoleRepo.create s n p true = .error multipleResultsErr ↔
      RoleRepo.assert_single_super_role s none = .error multipleResultsErr) := by
  unfold RoleRepo.create
  rw [if_pos rfl]
  cases ha : RoleRepo.assert_single_super_role s none with
  | error e =>
    simp
  | ok v =>
    simp only []
    constructor
    · constructor
      · intro h
        split at h <;> simp [superExistsErr] at h
      · intro h
        exact absurd h (by simp)
    · constructor
      · intro h
        split at h <;> simp [multipleResultsErr] at h
      · intro h
        exact absurd h (by simp)

theorem update_super_check (s : Store) (role : Role) (nm : Option String)
    (hrole : role.is_superuser = false) :
    (RoleRepo.update_role s role nm (some true) = .error superExistsErr ↔
      RoleRepo.assert_single_super_role s (some role.id) =
        .error superExistsErr) ∧
    (RoleRepo.update_role s role nm (some true) = .error multipleResultsErr ↔
      RoleRepo.assert_single_super_role s (some role.id) =
        .error multipleResultsErr) := by
  rw [update_role_some_true_eq s role nm hrole]
  cases ha : RoleRepo.assert_single_super_role s (some role.id) with
  | error e =>
    simp
  | ok v =>
    simp only []
    unfold RoleRepo.flushRole
    constructor
    · constructor
      · intro h
        split at h <;> simp [superExistsErr] at h
      · intro h
        exact absurd h (by simp)
    · constructor
      · intro h
        split at h <;> simp [multipleResultsErr] at h
      · intro h
        exact absurd h (by simp)

/-- C3 (amended): the superuser-uniqueness check includes soft-deleted
roles, and which error it raises depends on how many flagged roles its
query matches.  Creating a role with `is_superuser = true` fails the
check iff some role — active or soft-deleted — already has the flag:
with the `ValueError` (the Conflict the service reports) when exactly
one such role exists, and with the distinct `MultipleResultsFound`
error when two or more do.  Updating an active non-superuser role to
`is_superuser = true` behaves the same over the other roles (those with
a different id).  In particular creation FAILS, rather than succeeds,
when the only other flagged role is soft-deleted. -/
theorem single_superuser_conflict_iff (s : Store) (n : String)
    (p : Option (List Nat)) (role : Role) (nm : Option String)
    (hrole : role.is_superuser = false) :
    ((RoleRepo.create s n p true = .error superExistsErr ∨
      RoleRepo.create s n p true = .error multipleResultsErr) ↔
      ∃ r ∈ s.roles, r.is_superuser = true) ∧
    (RoleRepo.create s n p true = .error superExistsErr ↔
      s.roles.countP (superPred none) = 1) ∧
    (RoleRepo.create s n p true = .error multipleResultsErr ↔
      2 ≤ s.roles.countP (superPred none)) ∧
    ((RoleRepo.update_role s role nm (some true) = .error superExistsErr ∨
      RoleRepo.update_role s role nm (some true) = .error multipleResultsErr) ↔
      ∃ r ∈ s.roles, r.id ≠ role.id ∧ r.is_superuser = true) ∧
    (RoleRepo.update_role s role nm (some true) = .error superExistsErr ↔
      s.roles.countP (superPred (some role.id)) = 1) ∧
    (RoleRepo.update_role s role nm (some true) = .error multipleResultsErr ↔
      2 ≤ s.roles.countP (superPred (some role.id))) := by
  have hcreate := create_super_check s n p
  have hupdate := update_super_check s role nm hrole
  have hcases0 := assert_single_super_role_cases s none
  have hcases1 := assert_single_super_role_cases s (some role.id)
  have hone : (RoleRepo.create s n p true = .error superExistsErr ↔
      s.roles.countP (superPred none) = 1) :=
    hcreate.1.trans hcases0.2.1
  have hmany : (RoleRepo.create s n p true = .error multipleResultsErr ↔
      2 ≤ s.roles.countP (superPred none)) :=
    hcreate.2.trans hcases0.2.2
  have huone : (RoleRepo.update_role s role nm (some true) =
      .error superExistsErr ↔
      s.roles.countP (superPred (some role.id)) = 1) :=
    hupdate.1.trans hcases1.2.1
  have humany : (RoleRepo.update_role s role nm (some true) =
      .error multipleResultsErr ↔
      2 ≤ s.roles.countP (superPred (some role.id))) :=
    hupdate.2.trans hcases1.2.2
  refine ⟨?_, hone, hmany, ?_, huone, humany⟩
  · rw [hone, hmany]
    have hpos : (∃ r ∈ s.roles, r.is_superuser = true) ↔
        0 < s.roles.countP (superPred none) := by
      rw [List.countP_pos_iff]
      constructor
      · rintro ⟨r, hr, hf⟩
        exact ⟨r, hr, by simp [superPred, hf]⟩
      · rintro ⟨r, hr, hf⟩
        simp only [superPred, Bool.and_true] at hf
        exact ⟨r, hr, hf⟩
    rw [hpos]
    omega
  · rw [huone, humany]
    have hpos : (∃ r ∈ s.roles, r.id ≠ role.id ∧ r.is_superuser = true) ↔
        0 < s.roles.countP (superPred (some role.id)) := by
      rw [List.countP_pos_iff]
      constructor
      · rintro ⟨r, hr, hne, hf⟩
        refine ⟨r, hr, ?_⟩
        simp only [superPred, hf, Bool.true_and, Bool.not_eq_true',
          beq_eq_false_iff_ne]
        exact hne
      · rintro ⟨r, hr, hf⟩
        simp only [superPred, Bool.and_eq_true, Bool.not_eq_true',
          beq_eq_false_iff_ne] at hf
        exact ⟨r, hr, hf.2, hf.1⟩
    rw [hpos]
    omega

/-- Witness for C3 (amended) at a store holding one soft-deleted
superuser role and one active auditor role: creating a second superuser
role fails the check (with the single-match `ValueError`). -/
theorem single_superuser_conflict_iff_witness :
    (⟨1, "auditor", false, none⟩ : Role).is_superuser = false ∧
    ((RoleRepo.create
        ⟨[], [⟨2, "legacy", true, some 5⟩, ⟨1, "auditor", false, none⟩],
          [], [], [], 1, 3, 1⟩ "admin" none true = .error superExistsErr ∨
      RoleRepo.create
        ⟨[], [⟨2, "legacy", true, some 5⟩, ⟨1, "auditor", false, none⟩],
          [], [], [], 1, 3, 1⟩ "admin" none true = .error multipleResultsErr) ↔
      ∃ r ∈ (⟨[], [⟨2, "legacy", true, some 5⟩, ⟨1, "auditor", false, none⟩],
          [], [], [], 1, 3, 1⟩ : Store).roles, r.is_superuser = true) := by
  refine ⟨rfl, ?_⟩
  exact (single_superuser_conflict_iff
    ⟨[], [⟨2, "legacy", true, some 5⟩, ⟨1, "auditor", false, none⟩],
      [], [], [], 1, 3, 1⟩ "admin" none ⟨1, "auditor", false, none⟩ none rfl).1


/-- C3 as frozen is violated: in a store whose only superuser-flagged
role is soft-deleted, creating a new superuser role raises the
superuser-conflict error, whereas the claim says it must succeed. -/
theorem create_superuser_soft_deleted_counterexample :
    (⟨[], [⟨1, "legacy", true, some 5⟩], [], [], [], 1, 2, 1⟩ : Store).roles =
      [⟨1, "legacy", true, some 5⟩] ∧
    (∀ r ∈ [(⟨1, "legacy", true, some 5⟩ : Role)],
      r.is_superuser = true → r.deleted_at ≠ none) ∧
    RoleRepo.create ⟨[], [⟨1, "legacy", true, some 5⟩], [], [], [], 1, 2, 1⟩
      "admin" none true = .error superExistsErr := by
  refine ⟨rfl, ?_, rfl⟩
  intro r hr
  simp only [List.mem_singleton] at hr
  subst hr
  simp

/-! Privilege repository (`PrivilegeRepository`) and the role-privilege
link operations. -/

namespace PrivilegeRepo

/-- `PrivilegeRepository.get_or_create`: look up the active row matching
`(resource, action)`; if absent, insert a new row.  The flush of the
insert enforces the declared unique constraint
`uq_privilege_resource_action`, which ranges over ALL rows,
soft-deleted ones included. -/
def get_or_create (s : Store) (resource action : String)
    (description : Option String) : Except Err (Store × Privilege) :=
  match s.privileges.find? (fun p =>
      p.resource == resource && p.action == action && p.deleted_at.isNone) with
  | some p => .ok (s, p)
  | none =>
    if s.privileges.any (fun p => p.resource == resource && p.action == action) then
      .error (.integrityError "uq_privilege_resource_action")
    else
      let p : Privilege := ⟨s.nextPrivId, resource, action, description, none⟩
      .ok ({ s with
              privileges := s.privileges ++ [p],
              nextPrivId := s.nextPrivId + 1 }, p)

end PrivilegeRepo

namespace RoleRepo

/-- `RoleRepository.attach_privilege`: no-op for falsy (0/None) ids,
no-op when the link row already exists, otherwise insert the link. -/
def attach_privilege (s : Store) (role_id privilege_id : Nat) : Store :=
  if role_id == 0 || privilege_id == 0 then s
  else if s.role_privileges.any
      (fun rp => rp.1 == role_id && rp.2 == privilege_id) then s
  else { s with role_privileges := s.role_privileges ++ [(role_id, privilege_id)] }

/-- `RoleRepository.detach_privilege`: no-op for falsy ids, otherwise
delete the matching link rows (and nothing else). -/
def detach_privilege (s : Store) (role_id privilege_id : Nat) : Store :=
  if role_id == 0 || privilege_id == 0 then s
  else { s with role_privileges :=
      s.role_privileges.filter fun rp =>
        !(rp.1 == role_id && rp.2 == privilege_id) }

end RoleRepo

theorem find?_append_singleton_none {α : Type} (p : α → Bool) (l : List α)
    (x : α) (h : l.find? p = none) :
    (l ++ [x]).find? p = if p x then some x else none := by
  induction l with
  | nil => cases hx : p x <;> simp [List.find?, hx]
  | cons a l ih =>
    rw [List.find?_eq_none] at h
    have ha : p a = false := by
      have := h a (by simp)
      simpa using this
    have hl : l.find? p = none := by
      rw [List.find?_eq_none]
      intro x hx
      exact h x (by simp [hx])
    simp only [List.cons_append, List.find?_cons, ha]
    exact ih hl

/-- C6 (amended): in every state with no soft-deleted privilege matching
`(resource, action)`, `get_or_create` returns an active privilege with
exactly that resource and action, inserts a new row only when no active
match exists, and a second call with the same pair returns the same
privilege and adds no row.  (In a state where a soft-deleted privilege
with the pair exists and no active one does, the insert instead
violates `uq_privilege_resource_action` and fails — see the
counterexample.) -/
theorem get_or_create_spec (s : Store) (resource action : String)
    (d d2 : Option String)
    (hclean : ∀ p ∈ s.privileges, p.resource = resource → p.action = action →
      p.deleted_at = none) :
    ∃ s' p, PrivilegeRepo.get_or_create s resource action d = .ok (s', p) ∧
      p.resource = resource ∧ p.action = action ∧ p.deleted_at = none ∧
      p ∈ s'.privileges ∧
      ((∃ q ∈ s.privileges, q.resource = resource ∧ q.action = action ∧
          q.deleted_at = none) → s' = s) ∧
      ((¬ ∃ q ∈ s.privileges, q.resource = resource ∧ q.action = action ∧
          q.deleted_at = none) → s'.privileges = s.privileges ++ [p]) ∧
      PrivilegeRepo.get_or_create s' resource action d2 = .ok (s', p) := by
  cases hfind : s.privileges.find? (fun p =>
      p.resource == resource && p.action == action && p.deleted_at.isNone) with
  | some p =>
    have hpred := List.find?_some hfind
    simp only [Bool.and_eq_true, beq_iff_eq, Option.isNone_iff_eq_none] at hpred
    obtain ⟨⟨hres, hact⟩, hdel⟩ := hpred
    have hmem := List.mem_of_find?_eq_some hfind
    refine ⟨s, p, ?_, hres, hact, hdel, hmem, fun _ => rfl, ?_, ?_⟩
    · unfold PrivilegeRepo.get_or_create
      rw [hfind]
    · intro hno
      exact absurd ⟨p, hmem, hres, hact, hdel⟩ hno
    · unfold PrivilegeRepo.get_or_create
      rw [hfind]
  | none =>
    have hnomatch : ∀ q ∈ s.privileges,
        ¬(q.resource = resource ∧ q.action = action) := by
      intro q hq ⟨hqr, hqa⟩
      have hdel := hclean q hq hqr hqa
      have := List.find?_eq_none.mp hfind q hq
      simp [hqr, hqa, hdel] at this
    have hany : (s.privileges.any fun p =>
        p.resource == resource && p.action == action) = false := by
      simp only [List.any_eq_false, Bool.and_eq_true, beq_iff_eq, not_and]
      intro q hq hqr hqa
      exact hnomatch q hq ⟨hqr, hqa⟩
    refine ⟨{ s with
        privileges := s.privileges ++ [⟨s.nextPrivId, resource, action, d, none⟩],
        nextPrivId := s.nextPrivId + 1 },
      ⟨s.nextPrivId, resource, action, d, none⟩, ?_, rfl, rfl, rfl, by simp,
      ?_, fun _ => rfl, ?_⟩
    · unfold PrivilegeRepo.get_or_create
      rw [hfind, hany]
      simp
    · intro hex
      obtain ⟨q, hq, hqr, hqa, -⟩ := hex
      exact absurd ⟨hqr, hqa⟩ (hnomatch q hq)
    · unfold PrivilegeRepo.get_or_create
      have hstep := find?_append_singleton_none
        (fun p => p.resource == resource && p.action == action && p.deleted_at.isNone)
        s.privileges ⟨s.nextPrivId, resource, action, d, none⟩ hfind
      simp only [beq_self_eq_true, Bool.and_true, Option.isNone_none,
        Bool.true_and, if_pos] at hstep
      rw [hstep]

/-- Witness for C6 (amended): on the empty store, `get_or_create`
creates `("users", "read")`, and the second call returns the same
privilege without adding a row. -/
theorem get_or_create_spec_witness :
    (∀ p ∈ Store.empty.privileges, p.resource = "users" → p.action = "read" →
      p.deleted_at = none) ∧
    ∃ s' p, PrivilegeRepo.get_or_create Store.empty "users" "read" none =
        .ok (s', p) ∧
      p.resource = "users" ∧ p.action = "read" ∧ p.deleted_at = none ∧
      p ∈ s'.privileges ∧
      ((∃ q ∈ Store.empty.privileges, q.resource = "users" ∧ q.action = "read" ∧
          q.deleted_at = none) → s' = Store.empty) ∧
      ((¬ ∃ q ∈ Store.empty.privileges, q.resource = "users" ∧
          q.action = "read" ∧ q.deleted_at = none) →
        s'.privileges = Store.empty.privileges ++ [p]) ∧
      PrivilegeRepo.get_or_create s' "users" "read" none = .ok (s', p) :=
  ⟨by simp [Store.empty],
    get_or_create_spec Store.empty "users" "read" none none
      (by simp [Store.empty])⟩

/-- C6 as frozen is violated: with a soft-deleted `("users", "read")`
privilege on file and no active one, `get_or_create` hits the
`(resource, action)` unique constraint and fails instead of returning
an active privilege. -/
theorem get_or_create_soft_deleted_counterexample :
    (⟨[], [], [⟨1, "users", "read", none, some 7⟩], [], [], 1, 1, 2⟩ :
        Store).privileges = [⟨1, "users", "read", none, some 7⟩] ∧
    PrivilegeRepo.get_or_create
      ⟨[], [], [⟨1, "users", "read", none, some 7⟩], [], [], 1, 1, 2⟩
      "users" "read" none =
      .error (.integrityError "uq_privilege_resource_action") :=
  ⟨rfl, rfl⟩

/-- C7: attaching the same privilege to the same role twice leaves
exactly one link in `role_privileges` and the second attach is a
no-op rather than an error; detach removes only the matching link,
leaving the user, role and privilege rows untouched; detaching an
absent link is a no-op. -/
theorem attach_detach_links (s : Store) (rid pid : Nat)
    (hr : rid ≠ 0) (hp : pid ≠ 0)
    (hpk : s.role_privileges.count (rid, pid) ≤ 1) :
    ((RoleRepo.attach_privilege s rid pid).role_privileges.count (rid, pid) = 1) ∧
    (RoleRepo.attach_privilege (RoleRepo.attach_privilege s rid pid) rid pid =
      RoleRepo.attach_privilege s rid pid) ∧
    ((RoleRepo.detach_privilege s rid pid).users = s.users ∧
     (RoleRepo.detach_privilege s rid pid).roles = s.roles ∧
     (RoleRepo.detach_privilege s rid pid).privileges = s.privileges) ∧
    ((RoleRepo.detach_privilege s rid pid).role_privileges.count (rid, pid) = 0) ∧
    (∀ l, l ≠ (rid, pid) →
      (RoleRepo.detach_privilege s rid pid).role_privileges.count l =
        s.role_privileges.count l) ∧
    ((rid, pid) ∉ s.role_privileges → RoleRepo.detach_privilege s rid pid = s) := by
  have hguard : (rid == 0 || pid == 0) = false := by
    simp [hr, hp]
  have hPme : ∀ rp : Nat × Nat,
      (rp.1 == rid && rp.2 == pid) = true ↔ rp = (rid, pid) := by
    intro rp
    cases rp with
    | mk a b =>
      simp only [Bool.and_eq_true, beq_iff_eq, Prod.mk.injEq]
  have hdetach :
      (RoleRepo.detach_privilege s rid pid).role_privileges =
        s.role_privileges.filter (fun rp => !(rp.1 == rid && rp.2 == pid)) ∧
      (RoleRepo.detach_privilege s rid pid).users = s.users ∧
      (RoleRepo.detach_privilege s rid pid).roles = s.roles ∧
      (RoleRepo.detach_privilege s rid pid).privileges = s.privileges := by
    unfold RoleRepo.detach_privilege
    rw [hguard, if_neg (by simp)]
    exact ⟨rfl, rfl, rfl, rfl⟩
  by_cases hany : (s.role_privileges.any
      fun rp => rp.1 == rid && rp.2 == pid) = true
  case pos =>
    have ha : RoleRepo.attach_privilege s rid pid = s := by
      unfold RoleRepo.attach_privilege
      rw [hguard]
      simp only [Bool.false_eq_true, if_false]
      rw [if_pos hany]
    have hmem : (rid, pid) ∈ s.role_privileges := by
      simp only [List.any_eq_true] at hany
      obtain ⟨rp, hmem, hpred⟩ := hany
      rw [hPme rp] at hpred
      subst hpred
      exact hmem
    have hcount : s.role_privileges.count (rid, pid) = 1 := by
      have hpos := List.count_pos_iff.mpr hmem
      omega
    refine ⟨by rw [ha]; exact hcount, by rw [ha, ha], ?_, ?_, ?_, ?_⟩
    · exact ⟨hdetach.2.1, hdetach.2.2.1, hdetach.2.2.2⟩
    · rw [hdetach.1]
      apply List.count_eq_zero.mpr
      intro hmemf
      have := List.of_mem_filter hmemf
      simp at this
    · intro l hl
      rw [hdetach.1]
      apply List.count_filter
      have hfalse : (l.1 == rid && l.2 == pid) = false := by
        cases hc : (l.1 == rid && l.2 == pid) with
        | false => rfl
        | true => exact absurd ((hPme l).mp hc) hl
      simp [hfalse]
    · intro habs
      exact absurd hmem habs
  case neg =>
    have ha : RoleRepo.attach_privilege s rid pid =
        { s with role_privileges := s.role_privileges ++ [(rid, pid)] } := by
      unfold RoleRepo.attach_privilege
      rw [hguard]
      simp only [Bool.false_eq_true, if_false]
      rw [if_neg hany]
    have hnot : (rid, pid) ∉ s.role_privileges := by
      intro hmem
      exact hany (by
        simp only [List.any_eq_true]
        exact ⟨(rid, pid), hmem, by simp⟩)
    refine ⟨?_, ?_, ?_, ?_, ?_, ?_⟩
    · rw [ha]
      show (s.role_privileges ++ [(rid, pid)]).count (rid, pid) = 1
      rw [List.count_append, List.count_eq_zero.mpr hnot]
      simp
    · rw [ha]
      conv =>
        lhs
        unfold RoleRepo.attach_privilege
      rw [hguard]
      simp only [Bool.false_eq_true, if_false]
      rw [if_pos (by
        simp only [List.any_eq_true]
        refine ⟨(rid, pid), ?_, by simp⟩
        show (rid, pid) ∈ s.role_privileges ++ [(rid, pid)]
        simp)]
    · exact ⟨hdetach.2.1, hdetach.2.2.1, hdetach.2.2.2⟩
    · rw [hdetach.1]
      apply List.count_eq_zero.mpr
      intro hmemf
      have := List.of_mem_filter hmemf
      simp at this
    · intro l hl
      rw [hdetach.1]
      apply List.count_filter
      have hfalse : (l.1 == rid && l.2 == pid) = false := by
        cases hc : (l.1 == rid && l.2 == pid) with
        | false => rfl
        | true => exact absurd ((hPme l).mp hc) hl
      simp [hfalse]
    · intro habs
      have hfe : (s.role_privileges.filter fun rp =>
          !(rp.1 == rid && rp.2 == pid)) = s.role_privileges := by
        apply List.filter_eq_self.mpr
        intro a hamem
        have hfalse : (a.1 == rid && a.2 == pid) = false := by
          cases hc : (a.1 == rid && a.2 == pid) with
          | false => rfl
          | true =>
            rw [hPme a] at hc
            subst hc
            exact absurd hamem habs
        simp [hfalse]
      unfold RoleRepo.detach_privilege
      rw [hguard]
      simp only [Bool.false_eq_true, if_false]
      rw [hfe]

/-- Witness for C7 at the empty store with role id 1 and privilege
id 1: the double attach leaves one link and the detach of the absent
link is a no-op. -/
theorem attach_detach_links_witness :
    ((1 : Nat) ≠ 0 ∧ Store.empty.role_privileges.count (1, 1) ≤ 1) ∧
    (RoleRepo.attach_privilege (RoleRepo.attach_privilege Store.empty 1 1) 1 1 =
      RoleRepo.attach_privilege Store.empty 1 1) :=
  ⟨⟨by decide, by decide⟩,
    (attach_detach_links Store.empty 1 1 (by decide) (by decide)
      (by decide)).2.1⟩

/-! Credential and token issuer.  `app/core/security.py` is not part of
the sources; its functions are modelled from the spec (§4.3). -/

/-- Modelled from the spec: `get_password_hash` (from the missing
`app/core/security.py`) produces a salted adaptive hash of the
password; the model uses a deterministic injective tag, which keeps the
contract that verification succeeds exactly for the hashed password. -/
def get_password_hash (password : String) : String :=
  "bcrypt$" ++ password

/-- Modelled from the spec: `verify_password` (from the missing
`app/core/security.py`) checks a password against a stored hash,
succeeding iff the hash was produced from that password. -/
def verify_password (password hashed : String) : Bool :=
  get_password_hash password == hashed

/-- A decoded access token: subject (the user's id), email, and the
expiry timestamp in seconds. -/
structure Token where
  sub : Nat
  email : String
  exp : Nat
deriving DecidableEq, Repr

/-- Modelled from the spec: `create_access_token` (from the missing
`app/core/security.py`) embeds the user's id and email and expires at
`now + access_token_expire_minutes` (here in seconds). -/
def create_access_token (now expire_minutes : Nat) (sub : Nat)
    (email : String) : Token :=
  ⟨sub, email, now + expire_minutes * 60⟩

namespace UserRepo

/-- `UserRepository.soft_delete`: stamp `deleted_at` and clear
`is_active`. -/
def soft_delete (s : Store) (uid : Nat) (t : Nat) : Store :=
  { s with users := s.users.map fun u =>
      if u.id == uid then { u with deleted_at := some t, is_active := false }
      else u }

/-- `UserRepository.restore`: clear `deleted_at` and set `is_active`. -/
def restore (s : Store) (uid : Nat) : Store :=
  { s with users := s.users.map fun u =>
      if u.id == uid then { u with deleted_at := none, is_active := true }
      else u }

/-- `UserRepository.set_block_status`. -/
def set_block_status (s : Store) (uid : Nat) (blocked : Bool) : Store :=
  { s with users := s.users.map fun u =>
      if u.id == uid then { u with is_blocked := blocked } else u }

end UserRepo

/-- The bad-credentials error of `AuthService.authenticate`. -/
def invalidCredentialsErr : Err := .http 401 "Invalid credentials"

/-- The blocked-user error of `AuthService.authenticate`. -/
def blockedErr : Err := .http 403 "User is blocked"

namespace AuthService

/-- `AuthService.authenticate`: look up the active user by email
(soft-deleted users are filtered out by `get_by_email`); HTTP 401 when
the user is absent or the password does not verify; HTTP 403 when the
user is blocked; otherwise issue an access token carrying the user's id
and email. -/
def authenticate (s : Store) (now expire_minutes : Nat)
    (email password : String) : Except Err Token :=
  match UserRepo.get_by_email s email with
  | none => .error invalidCredentialsErr
  | some user =>
    if !verify_password password user.hashed_password then
      .error invalidCredentialsErr
    else if user.is_blocked then
      .error blockedErr
    else
      .ok (create_access_token now expire_minutes user.id user.email)

end AuthService

theorem find?_eq_some_of_unique {α : Type} (l : List α) (p : α → Bool) (u : α)
    (hmem : u ∈ l) (hpu : p u = true)
    (hother : ∀ v ∈ l, p v = true → v = u) :
    l.find? p = some u := by
  induction l with
  | nil => cases hmem
  | cons a l ih =>
    by_cases hpa : p a = true
    · have := hother a (by simp) hpa
      subst this
      simp [List.find?_cons, hpa]
    · have ha : a ≠ u := fun h => hpa (h ▸ hpu)
      have hmem2 : u ∈ l := by
        cases hmem with
        | head => exact absurd rfl ha
        | tail _ h => exact h
      rw [List.find?_cons]
      rw [Bool.not_eq_true] at hpa
      rw [hpa]
      exact ih hmem2 (fun v hv hp => hother v (by simp [hv]) hp)

theorem find?_map_eq_some_of_unique {α : Type} (l : List α) (f : α → α)
    (p : α → Bool) (u u2 : α)
    (hmem : u ∈ l) (hfu : f u = u2) (hpu : p u2 = true)
    (hother : ∀ v ∈ l, v ≠ u → f v = v ∧ p v = false) :
    (l.map f).find? p = some u2 := by
  induction l with
  | nil => cases hmem
  | cons a l ih =>
    by_cases ha : a = u
    · subst ha
      simp [List.find?_cons, hfu, hpu]
    · obtain ⟨hfa, hpa⟩ := hother a (by simp) ha
      have hmem2 : u ∈ l := by
        cases hmem with
        | head => exact absurd rfl ha
        | tail _ h => exact h
      rw [List.map_cons, List.find?_cons, hfa, hpa]
      exact ih hmem2 (fun v hv hne => hother v (by simp [hv]) hne)

/-- C5: for a user with correct credentials — when soft-deleted, login
fails with the 401 bad-credentials error, and succeeds again after
restore (if not blocked); when blocked and not soft-deleted, login
fails with the 403 blocked error, and succeeds again after unblocking;
an unknown email or a wrong password yields the 401 error. -/
theorem authenticate_lifecycle (s : Store) (now m : Nat) (u : User)
    (password : String)
    (hmem : u ∈ s.users)
    (hemail : ∀ v ∈ s.users, v.email = u.email → v = u)
    (hid : ∀ v ∈ s.users, v.id = u.id → v = u)
    (hpw : verify_password password u.hashed_password = true) :
    (u.deleted_at ≠ none →
      AuthService.authenticate s now m u.email password =
        .error invalidCredentialsErr) ∧
    (u.deleted_at ≠ none → u.is_blocked = false →
      AuthService.authenticate (UserRepo.restore s u.id) now m u.email
        password = .ok (create_access_token now m u.id u.email)) ∧
    (u.deleted_at = none → u.is_blocked = true →
      AuthService.authenticate s now m u.email password =
        .error blockedErr) ∧
    (u.deleted_at = none →
      AuthService.authenticate (UserRepo.set_block_status s u.id false) now m
        u.email password = .ok (create_access_token now m u.id u.email)) ∧
    (∀ email2, (∀ v ∈ s.users, v.email ≠ email2) →
      AuthService.authenticate s now m email2 password =
        .error invalidCredentialsErr) ∧
    (∀ pw2, verify_password pw2 u.hashed_password = false →
      u.deleted_at = none →
      AuthService.authenticate s now m u.email pw2 =
        .error invalidCredentialsErr) := by
  refine ⟨?_, ?_, ?_, ?_, ?_, ?_⟩
  · intro hdel
    have hnone : UserRepo.get_by_email s u.email = none := by
      unfold UserRepo.get_by_email
      rw [List.find?_eq_none]
      intro v hv
      simp only [Bool.and_eq_true, beq_iff_eq, Option.isNone_iff_eq_none,
        not_and]
      intro hve
      have := hemail v hv hve
      subst this
      exact hdel
    unfold AuthService.authenticate
    rw [hnone]
  · intro hdel hnb
    have hfind : UserRepo.get_by_email (UserRepo.restore s u.id) u.email =
        some { u with deleted_at := none, is_active := true } := by
      unfold UserRepo.get_by_email UserRepo.restore
      apply find?_map_eq_some_of_unique s.users _ _ u _ hmem
      · simp
      · simp
      · intro v hv hne
        have hvid : (v.id == u.id) = false := by
          cases hc : (v.id == u.id) with
          | false => rfl
          | true => exact absurd (hid v hv (by simpa using hc)) hne
        constructor
        · simp [hvid]
        · rw [Bool.and_eq_false_iff]
          left
          cases hc : (v.email == u.email) with
          | false => rfl
          | true => exact absurd (hemail v hv (by simpa using hc)) hne
    unfold AuthService.authenticate
    rw [hfind]
    simp only [hpw, Bool.not_true, Bool.false_eq_true, if_false, hnb]
  · intro hdel hb
    have hfind : UserRepo.get_by_email s u.email = some u := by
      unfold UserRepo.get_by_email
      apply find?_eq_some_of_unique s.users _ u hmem
      · simp [hdel]
      · intro v hv hp
        simp only [Bool.and_eq_true, beq_iff_eq] at hp
        exact hemail v hv hp.1
    unfold AuthService.authenticate
    rw [hfind]
    simp [hpw, hb, blockedErr]
  · intro hdel
    have hfind : UserRepo.get_by_email (UserRepo.set_block_status s u.id false)
        u.email = some { u with is_blocked := false } := by
      unfold UserRepo.get_by_email UserRepo.set_block_status
      apply find?_map_eq_some_of_unique s.users _ _ u _ hmem
      · simp
      · simp [hdel]
      · intro v hv hne
        have hvid : (v.id == u.id) = false := by
          cases hc : (v.id == u.id) with
          | false => rfl
          | true => exact absurd (hid v hv (by simpa using hc)) hne
        constructor
        · simp [hvid]
        · rw [Bool.and_eq_false_iff]
          left
          cases hc : (v.email == u.email) with
          | false => rfl
          | true => exact absurd (hemail v hv (by simpa using hc)) hne
    unfold AuthService.authenticate
    rw [hfind]
    simp only [hpw, Bool.not_true, Bool.false_eq_true, if_false]
  · intro email2 hno
    have hnone : UserRepo.get_by_email s email2 = none := by
      unfold UserRepo.get_by_email
      rw [List.find?_eq_none]
      intro v hv
      simp only [Bool.and_eq_true, beq_iff_eq, Option.isNone_iff_eq_none,
        not_and]
      intro hve
      exact absurd hve (hno v hv)
    unfold AuthService.authenticate
    rw [hnone]
  · intro pw2 hpw2 hdel
    have hfind : UserRepo.get_by_email s u.email = some u := by
      unfold UserRepo.get_by_email
      apply find?_eq_some_of_unique s.users _ u hmem
      · simp [hdel]
      · intro v hv hp
        simp only [Bool.and_eq_true, beq_iff_eq] at hp
        exact hemail v hv hp.1
    unfold AuthService.authenticate
    rw [hfind]
    simp [hpw2]

/-- Witness for C5: a single blocked active user with correct
credentials is refused with the 403 blocked error. -/
theorem authenticate_lifecycle_witness :
    ((⟨1, "a@x", "bcrypt$pw", true, true, none⟩ : User) ∈
        (⟨[⟨1, "a@x", "bcrypt$pw", true, true, none⟩], [], [], [], [],
          2, 1, 1⟩ : Store).users ∧
      verify_password "pw" "bcrypt$pw" = true) ∧
    AuthService.authenticate
        ⟨[⟨1, "a@x", "bcrypt$pw", true, true, none⟩], [], [], [], [], 2, 1, 1⟩
        100 30 "a@x" "pw" = .error blockedErr :=
  ⟨⟨by simp, by decide⟩,
    ((authenticate_lifecycle
      ⟨[⟨1, "a@x", "bcrypt$pw", true, true, none⟩], [], [], [], [], 2, 1, 1⟩
      100 30 ⟨1, "a@x", "bcrypt$pw", true, true, none⟩ "pw"
      (by simp) (by simp) (by simp) (by decide)).2.2.1 rfl rfl)⟩

/-! Token revocation ledger and the TTL key-value cache
(`app/core/caching.py`, in-process fallback semantics), plus the
authenticated-request dependency `get_current_user`. -/

/-- A TTL key-value store: entries carry value and absolute expiry time
in seconds, mirroring `AsyncTTLCache` where `set` records
`time.time() + ttl`. -/
structure Cache (α : Type) where
  entries : List (String × α × Nat)
deriving DecidableEq, Repr

namespace Cache

/-- The empty cache. -/
def empty (α : Type) : Cache α := ⟨[]⟩

/-- `AsyncTTLCache.get`: `None` when the entry is missing, when its
recorded expiry is falsy (0), or when the expiry lies strictly in the
past; otherwise the stored value. -/
def get {α : Type} (c : Cache α) (now : Nat) (key : String) : Option α :=
  match c.entries.find? (fun e => e.1 == key) with
  | none => none
  | some e => if e.2.2 == 0 || e.2.2 < now then none else some e.2.1

/-- `AsyncTTLCache.set`: overwrite the entry, expiry `now + ttl`. -/
def set {α : Type} (c : Cache α) (now : Nat) (key : String) (value : α)
    (ttl : Nat) : Cache α :=
  ⟨(key, value, now + ttl) :: c.entries.filter (fun e => !(e.1 == key))⟩

/-- `AsyncTTLCache.delete`: drop the entry. -/
def delete {α : Type} (c : Cache α) (key : String) : Cache α :=
  ⟨c.entries.filter (fun e => !(e.1 == key))⟩

end Cache

/-- Modelled from the spec: a bearer token as received on the wire.
`app/core/security.py` (JWT encode/decode) is not in the sources; the
model keeps the raw string (the revocation-ledger key), whether
signature and payload verify, and the embedded subject and expiry. -/
structure RawToken where
  raw : String
  sig_ok : Bool
  sub : Nat
  exp : Nat
deriving DecidableEq, Repr

/-- Modelled from the spec: `decode_access_token` (missing
`app/core/security.py`) verifies signature and expiry and extracts the
subject user id; it reports failure on signature mismatch, malformed
payload or expiry. -/
def decode_access_token (now : Nat) (t : RawToken) : Option Nat :=
  if t.sig_ok && decide (now < t.exp) then some t.sub else none

namespace TokenBlocklistService

/-- `TokenBlocklistService.revoke`: store the key
`"token:block:" ++ token` with TTL `access_token_expire_minutes * 60`
seconds. -/
def revoke (c : Cache Bool) (now expire_minutes : Nat) (token : String) :
    Cache Bool :=
  Cache.set c now ("token:block:" ++ token) true (expire_minutes * 60)

/-- `TokenBlocklistService.is_revoked`: truthiness of the stored
value. -/
def is_revoked (c : Cache Bool) (now : Nat) (token : String) : Bool :=
  match Cache.get c now ("token:block:" ++ token) with
  | some b => b
  | none => false

end TokenBlocklistService

namespace UserService

/-- `UserService.get_by_id`: serve from the cache when a live entry
exists, otherwise read the repository and cache the result.  The
serialize/deserialize pair round-trips every field, so the cached value
is the user record itself. -/
def get_by_id (s : Store) (c : Cache User) (now ttl uid : Nat) :
    Option User × Cache User :=
  match Cache.get c now ("user:id:" ++ toString uid) with
  | some u => (some u, c)
  | none =>
    match UserRepo.get_by_id s uid with
    | some u => (some u, Cache.set c now ("user:id:" ++ toString uid) u ttl)
    | none => (none, c)

/-- `UserService.get_by_email`, cached under the email key. -/
def get_by_email (s : Store) (c : Cache User) (now ttl : Nat)
    (email : String) : Option User × Cache User :=
  match Cache.get c now ("user:email:" ++ email) with
  | some u => (some u, c)
  | none =>
    match UserRepo.get_by_email s email with
    | some u => (some u, Cache.set c now ("user:email:" ++ email) u ttl)
    | none => (none, c)

/-- `UserService._invalidate_cache`: delete the entry under the user's
(current) email key, and under the id key when the id is truthy. -/
def invalidate_cache (c : Cache User) (u : User) : Cache User :=
  let c1 := Cache.delete c ("user:email:" ++ u.email)
  if u.id != 0 then Cache.delete c1 ("user:id:" ++ toString u.id) else c1

end UserService

/-- The 401 response `get_current_user` returns for every failure. -/
def credentialsErr : Err := .http 401 "Could not validate credentials"

/-- `get_current_user` (`app/api/dependencies.py`): decode the token,
reject revoked tokens, resolve the user through the cached
`UserService.get_by_id`, reject missing and blocked users — each
failure with the same 401 `credentialsErr`. -/
def get_current_user (s : Store) (uc : Cache User) (bc : Cache Bool)
    (now ttl : Nat) (t : RawToken) : Except Err User :=
  match decode_access_token now t with
  | none => .error credentialsErr
  | some uid =>
    if TokenBlocklistService.is_revoked bc now t.raw then
      .error credentialsErr
    else
      match (UserService.get_by_id s uc now ttl uid).1 with
      | none => .error credentialsErr
      | some u =>
        if u.is_blocked then .error credentialsErr else .ok u

/-- C4: revoking a token makes `is_revoked` true immediately and keeps
it true at every instant up to the token's natural expiry (the ledger
entry, stamped with the configured TTL, cannot expire first:
`exp ≤ revocation time + TTL`); from revocation on, `get_current_user`
rejects the token with exactly the 401 response used for a token whose
signature does not verify. -/
theorem revoke_token_spec (c : Cache Bool) (s : Store) (uc : Cache User)
    (t : RawToken) (t0 t1 now m ttl : Nat)
    (hexp : t.exp = t0 + m * 60)
    (hm : 0 < m)
    (hissue : t0 ≤ t1) (h1 : t1 ≤ now) (h2 : now ≤ t.exp) :
    t.exp ≤ t1 + m * 60 ∧
    TokenBlocklistService.is_revoked
      (TokenBlocklistService.revoke c t1 m t.raw) t1 t.raw = true ∧
    TokenBlocklistService.is_revoked
      (TokenBlocklistService.revoke c t1 m t.raw) now t.raw = true ∧
    get_current_user s uc (TokenBlocklistService.revoke c t1 m t.raw)
      now ttl t = .error credentialsErr ∧
    get_current_user s uc (TokenBlocklistService.revoke c t1 m t.raw)
      now ttl { t with sig_ok := false } = .error credentialsErr := by
  have hrev : ∀ x : Nat, x ≤ t1 + m * 60 →
      TokenBlocklistService.is_revoked
        (TokenBlocklistService.revoke c t1 m t.raw) x t.raw = true := by
    intro x hx
    unfold TokenBlocklistService.is_revoked TokenBlocklistService.revoke
      Cache.get Cache.set
    simp only [List.find?_cons, beq_self_eq_true]
    have hz : (t1 + m * 60 == 0) = false := by
      rw [beq_eq_false_iff_ne]
      omega
    have hlt : decide (t1 + m * 60 < x) = false := by
      rw [decide_eq_false_iff_not]
      omega
    simp [hz, Nat.not_lt.mpr hx]
  have hb : t.exp ≤ t1 + m * 60 := by omega
  refine ⟨hb, hrev t1 (by omega), hrev now (by omega), ?_, ?_⟩
  · unfold get_current_user
    cases hd : decode_access_token now t with
    | none => rfl
    | some uid =>
      rw [hrev now (by omega)]
      simp
  · unfold get_current_user
    have hd : decode_access_token now { t with sig_ok := false } = none := by
      unfold decode_access_token
      simp
    rw [hd]

/-- Witness for C4: token issued at time 0 with a 1-minute lifetime,
revoked at time 10 and presented at time 30. -/
theorem revoke_token_spec_witness :
    ((⟨"tok", true, 7, 60⟩ : RawToken).exp = 0 + 1 * 60 ∧ (0 : Nat) < 1 ∧
      (10 : Nat) ≤ 30 ∧ (30 : Nat) ≤ 60) ∧
    TokenBlocklistService.is_revoked
      (TokenBlocklistService.revoke (Cache.empty Bool) 10 1 "tok") 30 "tok" =
        true :=
  ⟨⟨rfl, by decide, by decide, by decide⟩,
    (revoke_token_spec (Cache.empty Bool) Store.empty (Cache.empty User)
      ⟨"tok", true, 7, 60⟩ 0 10 30 1 5 rfl (by decide) (by decide) (by decide)
      (by decide)).2.2.1⟩

/-- C9 (amended): provided the user-service cache holds no entry under
the subject's id key — so the lookup reads the store — a valid,
unexpired, unrevoked token whose subject user is active (not
soft-deleted) but blocked is rejected by `get_current_user` with the
same 401 `credentialsErr` used for invalid tokens, not with a 403
Forbidden.  Without that proviso the claim fails: `get_current_user`
resolves the user through the cached `UserService.get_by_id`, and a
live stale entry in which the user is not yet blocked makes the request
succeed (see the counterexample). -/
theorem get_current_user_blocked (s : Store) (uc : Cache User)
    (bc : Cache Bool) (now ttl : Nat) (t : RawToken) (u : User)
    (hsig : t.sig_ok = true) (hexp : now < t.exp)
    (hrev : TokenBlocklistService.is_revoked bc now t.raw = false)
    (hcache : Cache.get uc now ("user:id:" ++ toString t.sub) = none)
    (hlook : UserRepo.get_by_id s t.sub = some u)
    (hblocked : u.is_blocked = true) :
    get_current_user s uc bc now ttl t =
      .error (.http 401 "Could not validate credentials") ∧
    get_current_user s uc bc now ttl { t with sig_ok := false } =
      .error (.http 401 "Could not validate credentials") := by
  constructor
  · unfold get_current_user
    have hd : decode_access_token now t = some t.sub := by
      unfold decode_access_token
      simp [hsig, hexp]
    rw [hd, hrev]
    simp only [Bool.false_eq_true, if_false]
    unfold UserService.get_by_id
    rw [hcache, hlook]
    simp [hblocked, credentialsErr]
  · unfold get_current_user
    have hd : decode_access_token now { t with sig_ok := false } = none := by
      unfold decode_access_token
      simp
    rw [hd]
    rfl

/-- Witness for C9: concrete store with one blocked user and a valid
token for them. -/
theorem get_current_user_blocked_witness :
    ((⟨"tok", true, 1, 60⟩ : RawToken).sig_ok = true ∧ (30 : Nat) < 60 ∧
      UserRepo.get_by_id
        ⟨[⟨1, "a@x", "bcrypt$pw", true, true, none⟩], [], [], [], [],
          2, 1, 1⟩ 1 = some ⟨1, "a@x", "bcrypt$pw", true, true, none⟩) ∧
    get_current_user
      ⟨[⟨1, "a@x", "bcrypt$pw", true, true, none⟩], [], [], [], [], 2, 1, 1⟩
      (Cache.empty User) (Cache.empty Bool) 30 5 ⟨"tok", true, 1, 60⟩ =
      .error (.http 401 "Could not validate credentials") :=
  ⟨⟨rfl, by decide, rfl⟩,
    (get_current_user_blocked
      ⟨[⟨1, "a@x", "bcrypt$pw", true, true, none⟩], [], [], [], [], 2, 1, 1⟩
      (Cache.empty User) (Cache.empty Bool) 30 5 ⟨"tok", true, 1, 60⟩
      ⟨1, "a@x", "bcrypt$pw", true, true, none⟩
      rfl (by decide) rfl rfl rfl rfl).1⟩

/-- C9 as frozen is violated: the store's user 1 is blocked and a
valid, unrevoked token names them, yet the user-service cache holds a
live stale copy with `is_blocked = false`, so `get_current_user` serves
the cached row and accepts the request instead of rejecting it. -/
theorem get_current_user_stale_cache_counterexample :
    UserRepo.get_by_id
      ⟨[⟨1, "a@x", "bcrypt$pw", true, true, none⟩], [], [], [], [],
        2, 1, 1⟩ 1 = some ⟨1, "a@x", "bcrypt$pw", true, true, none⟩ ∧
    (⟨1, "a@x", "bcrypt$pw", true, true, none⟩ : User).is_blocked = true ∧
    TokenBlocklistService.is_revoked (Cache.empty Bool) 30 "tok" = false ∧
    get_current_user
      ⟨[⟨1, "a@x", "bcrypt$pw", true, true, none⟩], [], [], [], [], 2, 1, 1⟩
      ⟨[("user:id:1", ⟨1, "a@x", "bcrypt$pw", true, false, none⟩, 100)]⟩
      (Cache.empty Bool) 30 5 ⟨"tok", true, 1, 60⟩ =
      .ok ⟨1, "a@x", "bcrypt$pw", true, false, none⟩ :=
  ⟨rfl, rfl, rfl, rfl⟩


/-! User repository write operations and the cached `UserService`
mutators (claim C10), plus the bootstrap seed (claim C8). -/

namespace UserRepo

/-- `UserRepository.get_by_id_include_deleted`. -/
def get_by_id_include_deleted (s : Store) (uid : Nat) : Option User :=
  s.users.find? fun u => u.id == uid

/-- `UserRepository.create_user`: hash the password, link the requested
roles (this lookup has no deletion filter), insert; the flush enforces
the unique constraint on `users.email` over all rows. -/
def create_user (s : Store) (email password : String) (is_blocked : Bool)
    (role_ids : Option (List Nat)) : Except Err (Store × User) :=
  if s.users.any (fun u => u.email == email) then
    .error (.integrityError "users.email")
  else
    let u : User :=
      ⟨s.nextUserId, email, get_password_hash password, true, is_blocked, none⟩
    let links : List (Nat × Nat) :=
      match role_ids with
      | some ids =>
        (s.roles.filter fun r => ids.contains r.id).map fun r => (u.id, r.id)
      | none => []
    .ok ({ s with
            users := s.users ++ [u],
            user_roles := s.user_roles ++ links,
            nextUserId := s.nextUserId + 1 }, u)

/-- The rename step of `UserRepository.update_user`: `if email:` applies
only a non-empty new email. -/
def reEmailed (user : User) (email : Option String) : User :=
  match email with
  | some e => if e == "" then user else { user with email := e }
  | none => user

/-- `UserRepository.update_user` on a fetched user row: optional email
change, optional full role replacement resolved against non-deleted
roles; the flush enforces the email unique constraint against every
other row. -/
def update_user (s : Store) (user : User) (email : Option String)
    (role_ids : Option (List Nat)) : Except Err (Store × User) :=
  let u1 := reEmailed user email
  if s.users.any (fun v => !(v.id == user.id) && v.email == u1.email) then
    .error (.integrityError "users.email")
  else
    let s1 := { s with users := s.users.map fun v =>
        if v.id == user.id then u1 else v }
    match role_ids with
    | none => .ok (s1, u1)
    | some ids =>
      .ok ({ s1 with user_roles :=
        (s1.user_roles.filter fun ur => !(ur.1 == user.id)) ++
          ((s.roles.filter fun r =>
              ids.contains r.id && r.deleted_at.isNone).map
            fun r => (user.id, r.id)) }, u1)

/-- `UserRepository.attach_roles`: append links to the requested
non-deleted roles that the user does not already hold. -/
def attach_roles (s : Store) (user : User) (role_ids : List Nat) : Store :=
  { s with user_roles := s.user_roles ++
      ((s.roles.filter fun r =>
          role_ids.contains r.id && r.deleted_at.isNone &&
            !(s.user_roles.any fun ur => ur.1 == user.id && ur.2 == r.id)).map
        fun r => (user.id, r.id)) }

/-- `UserRepository.detach_roles`: drop the user's links to the listed
role ids. -/
def detach_roles (s : Store) (user : User) (role_ids : List Nat) : Store :=
  { s with user_roles := s.user_roles.filter fun ur =>
      !(ur.1 == user.id && role_ids.contains ur.2) }

/-- `UserRepository.reset_password`: overwrite the stored hash. -/
def reset_password (s : Store) (user : User) (password : String) :
    Store × User :=
  let u1 := { user with hashed_password := get_password_hash password }
  ({ s with users := s.users.map fun v => if v.id == user.id then u1 else v },
    u1)

/-- `UserRepository.hard_delete`: physically remove the user row and
its role links. -/
def hard_delete (s : Store) (uid : Nat) : Store :=
  { s with
    users := s.users.filter fun u => !(u.id == uid),
    user_roles := s.user_roles.filter fun ur => !(ur.1 == uid) }

end UserRepo

/-- The 404 error of `UserService._require_user`. -/
def userNotFoundErr : Err := .http 404 "User not found"

namespace UserService

/-- `UserService._require_user`: resolve the user, optionally among
soft-deleted rows, and 404 when absent (or soft-deleted in active-only
mode). -/
def require_user (s : Store) (uid : Nat) (include_deleted : Bool) :
    Except Err User :=
  match (if include_deleted then UserRepo.get_by_id_include_deleted s uid
         else UserRepo.get_by_id s uid) with
  | none => .error userNotFoundErr
  | some u =>
    if !include_deleted && !u.deleted_at.isNone then .error userNotFoundErr
    else .ok u

end UserService

/-- The mutating `UserService` operations of claim C10.  `t` below is
the wall-clock timestamp a soft delete records. -/
inductive UserOp where
  | create (email password : String) (role_ids : Option (List Nat))
  | update (uid : Nat) (email : Option String) (role_ids : Option (List Nat))
  | block (uid : Nat)
  | unblock (uid : Nat)
  | resetPassword (uid : Nat) (password : String)
  | softDelete (uid : Nat)
  | hardDelete (uid : Nat)
  | restore (uid : Nat)
  | assignRoles (uid : Nat) (role_ids : List Nat)
  | removeRoles (uid : Nat) (role_ids : List Nat)
deriving DecidableEq, Repr

/-- One mutating `UserService` request: each successful branch mutates
the store, then runs `_invalidate_cache` on the user row the service
method works with (its return value), then commits.  The returned
`User` is that row.  `restore_user` of a non-deleted user returns early
without invalidating. -/
def applyUserOp (s : Store) (c : Cache User) (t : Nat) :
    UserOp → Except Err (Store × Cache User × User)
  | .create email password role_ids =>
    match UserRepo.create_user s email password false role_ids with
    | .error e => .error e
    | .ok (s1, u) => .ok (s1, UserService.invalidate_cache c u, u)
  | .update uid email role_ids =>
    match UserService.require_user s uid false with
    | .error e => .error e
    | .ok u =>
      match UserRepo.update_user s u email role_ids with
      | .error e => .error e
      | .ok (s1, u1) => .ok (s1, UserService.invalidate_cache c u1, u1)
  | .block uid =>
    match UserService.require_user s uid false with
    | .error e => .error e
    | .ok u =>
      .ok (UserRepo.set_block_status s u.id true,
        UserService.invalidate_cache c { u with is_blocked := true },
        { u with is_blocked := true })
  | .unblock uid =>
    match UserService.require_user s uid false with
    | .error e => .error e
    | .ok u =>
      .ok (UserRepo.set_block_status s u.id false,
        UserService.invalidate_cache c { u with is_blocked := false },
        { u with is_blocked := false })
  | .resetPassword uid password =>
    match UserService.require_user s uid false with
    | .error e => .error e
    | .ok u =>
      match UserRepo.reset_password s u password with
      | (s1, u1) => .ok (s1, UserService.invalidate_cache c u1, u1)
  | .softDelete uid =>
    match UserService.require_user s uid true with
    | .error e => .error e
    | .ok u =>
      .ok (UserRepo.soft_delete s u.id t,
        UserService.invalidate_cache c u, u)
  | .hardDelete uid =>
    match UserService.require_user s uid true with
    | .error e => .error e
    | .ok u =>
      .ok (UserRepo.hard_delete s u.id, UserService.invalidate_cache c u, u)
  | .restore uid =>
    match UserService.require_user s uid true with
    | .error e => .error e
    | .ok u =>
      if u.deleted_at.isNone then .ok (s, c, u)
      else
        .ok (UserRepo.restore s u.id,
          UserService.invalidate_cache c
            { u with deleted_at := none, is_active := true },
          { u with deleted_at := none, is_active := true })
  | .assignRoles uid role_ids =>
    match UserService.require_user s uid false with
    | .error e => .error e
    | .ok u =>
      .ok (UserRepo.attach_roles s u role_ids,
        UserService.invalidate_cache c u, u)
  | .removeRoles uid role_ids =>
    match UserService.require_user s uid false with
    | .error e => .error e
    | .ok u =>
      .ok (UserRepo.detach_roles s u role_ids,
        UserService.invalidate_cache c u, u)

theorem cache_get_of_no_key {α : Type} (c : Cache α) (k : String) (x : Nat)
    (h : ∀ e ∈ c.entries, (e.1 == k) = false) : Cache.get c x k = none := by
  unfold Cache.get
  rw [List.find?_eq_none.mpr (by intro e he; simp [h e he])]

theorem cache_get_delete {α : Type} (c : Cache α) (k : String) (x : Nat) :
    Cache.get (Cache.delete c k) x k = none := by
  apply cache_get_of_no_key
  intro e he
  have := List.of_mem_filter he
  simpa using this

theorem invalidate_cache_clears (c : Cache User) (u : User) (x : Nat)
    (hid : u.id ≠ 0) :
    Cache.get (UserService.invalidate_cache c u) x
      ("user:id:" ++ toString u.id) = none ∧
    Cache.get (UserService.invalidate_cache c u) x
      ("user:email:" ++ u.email) = none := by
  unfold UserService.invalidate_cache
  have hne : (u.id != 0) = true := by simpa using hid
  rw [if_pos hne]
  constructor
  · exact cache_get_delete _ _ _
  · apply cache_get_of_no_key
    intro e he
    have h1 : e ∈ (Cache.delete c ("user:email:" ++ u.email)).entries :=
      List.mem_of_mem_filter he
    have := List.of_mem_filter h1
    simpa using this

theorem get_by_id_readthrough (s : Store) (c : Cache User) (x ttl uid : Nat)
    (h : Cache.get c x ("user:id:" ++ toString uid) = none) :
    (UserService.get_by_id s c x ttl uid).1 = UserRepo.get_by_id s uid := by
  unfold UserService.get_by_id
  rw [h]
  cases hr : UserRepo.get_by_id s uid <;> simp

theorem get_by_email_readthrough (s : Store) (c : Cache User) (x ttl : Nat)
    (email : String)
    (h : Cache.get c x ("user:email:" ++ email) = none) :
    (UserService.get_by_email s c x ttl email).1 =
      UserRepo.get_by_email s email := by
  unfold UserService.get_by_email
  rw [h]
  cases hr : UserRepo.get_by_email s email <;> simp

/-- C10 (amended): every mutating `UserService` operation that performs
its write deletes the cached entries under the affected user's id key
and under that user's post-operation email key, so an immediately
following `get_by_id` — or `get_by_email` with the user's current
email — reads through to the repository.  The claim as frozen fails
for `update_user` with an email change: only the new email's key is
invalidated, and `get_by_email` under the former email can still serve
the stale cached row (see the counterexample).  (`restore_user` of a
non-deleted user returns early without invalidating, hence the
hypothesis on restore targets.) -/
theorem user_ops_invalidate_cache (s : Store) (c : Cache User) (t : Nat)
    (op : UserOp) (s2 : Store) (c2 : Cache User) (u2 : User)
    (hok : applyUserOp s c t op = .ok (s2, c2, u2))
    (hid : u2.id ≠ 0)
    (hres : ∀ uid u, op = UserOp.restore uid →
      UserService.require_user s uid true = .ok u → u.deleted_at ≠ none) :
    (∀ x, Cache.get c2 x ("user:id:" ++ toString u2.id) = none) ∧
    (∀ x, Cache.get c2 x ("user:email:" ++ u2.email) = none) ∧
    (∀ x ttl, (UserService.get_by_id s2 c2 x ttl u2.id).1 =
      UserRepo.get_by_id s2 u2.id) ∧
    (∀ x ttl, (UserService.get_by_email s2 c2 x ttl u2.email).1 =
      UserRepo.get_by_email s2 u2.email) := by
  have hc2 : c2 = UserService.invalidate_cache c u2 := by
    cases op with
    | create email password role_ids =>
      simp only [applyUserOp] at hok
      split at hok
      · exact absurd hok (by simp)
      · simp only [Except.ok.injEq, Prod.mk.injEq] at hok
        obtain ⟨-, hcc, huu⟩ := hok
        rw [← hcc, huu]
    | update uid email role_ids =>
      simp only [applyUserOp] at hok
      split at hok
      · exact absurd hok (by simp)
      · split at hok
        · exact absurd hok (by simp)
        · simp only [Except.ok.injEq, Prod.mk.injEq] at hok
          obtain ⟨-, hcc, huu⟩ := hok
          rw [← hcc, huu]
    | block uid =>
      simp only [applyUserOp] at hok
      split at hok
      · exact absurd hok (by simp)
      · simp only [Except.ok.injEq, Prod.mk.injEq] at hok
        obtain ⟨-, hcc, huu⟩ := hok
        rw [← hcc, huu]
    | unblock uid =>
      simp only [applyUserOp] at hok
      split at hok
      · exact absurd hok (by simp)
      · simp only [Except.ok.injEq, Prod.mk.injEq] at hok
        obtain ⟨-, hcc, huu⟩ := hok
        rw [← hcc, huu]
    | resetPassword uid password =>
      simp only [applyUserOp] at hok
      split at hok
      · exact absurd hok (by simp)
      · simp only [Except.ok.injEq, Prod.mk.injEq] at hok
        obtain ⟨-, hcc, huu⟩ := hok
        rw [← hcc, huu]
    | softDelete uid =>
      simp only [applyUserOp] at hok
      split at hok
      · exact absurd hok (by simp)
      · simp only [Except.ok.injEq, Prod.mk.injEq] at hok
        obtain ⟨-, hcc, huu⟩ := hok
        rw [← hcc, huu]
    | hardDelete uid =>
      simp only [applyUserOp] at hok
      split at hok
      · exact absurd hok (by simp)
      · simp only [Except.ok.injEq, Prod.mk.injEq] at hok
        obtain ⟨-, hcc, huu⟩ := hok
        rw [← hcc, huu]
    | restore uid =>
      simp only [applyUserOp] at hok
      split at hok
      · exact absurd hok (by simp)
      · rename_i u hu
        split at hok
        · rename_i hdel
          exact absurd (Option.isNone_iff_eq_none.mp hdel) (hres uid u rfl hu)
        · simp only [Except.ok.injEq, Prod.mk.injEq] at hok
          obtain ⟨-, hcc, huu⟩ := hok
          rw [← hcc, huu]
    | assignRoles uid role_ids =>
      simp only [applyUserOp] at hok
      split at hok
      · exact absurd hok (by simp)
      · simp only [Except.ok.injEq, Prod.mk.injEq] at hok
        obtain ⟨-, hcc, huu⟩ := hok
        rw [← hcc, huu]
    | removeRoles uid role_ids =>
      simp only [applyUserOp] at hok
      split at hok
      · exact absurd hok (by simp)
      · simp only [Except.ok.injEq, Prod.mk.injEq] at hok
        obtain ⟨-, hcc, huu⟩ := hok
        rw [← hcc, huu]
  subst hc2
  refine ⟨fun x => (invalidate_cache_clears c u2 x hid).1,
    fun x => (invalidate_cache_clears c u2 x hid).2,
    fun x ttl => get_by_id_readthrough _ _ _ _ _
      ((invalidate_cache_clears c u2 x hid).1),
    fun x ttl => get_by_email_readthrough _ _ _ _ _
      ((invalidate_cache_clears c u2 x hid).2)⟩

/-- Witness for C10 (amended): blocking the single user of a concrete
store clears both of their cache keys. -/
theorem user_ops_invalidate_cache_witness :
    applyUserOp
      ⟨[⟨1, "a@x", "bcrypt$pw", true, false, none⟩], [], [], [], [], 2, 1, 1⟩
      ⟨[("user:id:1", ⟨1, "a@x", "bcrypt$pw", true, false, none⟩, 100)]⟩ 50
      (UserOp.block 1) =
      .ok (⟨[⟨1, "a@x", "bcrypt$pw", true, true, none⟩], [], [], [], [],
          2, 1, 1⟩,
        ⟨[]⟩, ⟨1, "a@x", "bcrypt$pw", true, true, none⟩) ∧
    (∀ x, Cache.get (⟨[]⟩ : Cache User) x ("user:id:" ++ toString 1) = none) :=
  ⟨rfl,
    (user_ops_invalidate_cache
      ⟨[⟨1, "a@x", "bcrypt$pw", true, false, none⟩], [], [], [], [], 2, 1, 1⟩
      ⟨[("user:id:1", ⟨1, "a@x", "bcrypt$pw", true, false, none⟩, 100)]⟩ 50
      (UserOp.block 1)
      ⟨[⟨1, "a@x", "bcrypt$pw", true, true, none⟩], [], [], [], [], 2, 1, 1⟩
      ⟨[]⟩ ⟨1, "a@x", "bcrypt$pw", true, true, none⟩
      rfl (by decide) (fun uid u h => nomatch h)).1⟩

/-- C10 as frozen is violated: after `update_user` changes the user's
email from `a@x` to `b@x`, the cache entry under the old email is not
deleted, and a subsequent `get_by_email "a@x"` serves the stale cached
row even though the repository no longer has an active user with that
email. -/
theorem update_user_stale_email_counterexample :
    applyUserOp
      ⟨[⟨1, "a@x", "bcrypt$pw", true, false, none⟩], [], [], [], [], 2, 1, 1⟩
      ⟨[("user:email:a@x", ⟨1, "a@x", "bcrypt$pw", true, false, none⟩, 100)]⟩
      50 (UserOp.update 1 (some "b@x") none) =
      .ok (⟨[⟨1, "b@x", "bcrypt$pw", true, false, none⟩], [], [], [], [],
          2, 1, 1⟩,
        ⟨[("user:email:a@x", ⟨1, "a@x", "bcrypt$pw", true, false, none⟩,
          100)]⟩,
        ⟨1, "b@x", "bcrypt$pw", true, false, none⟩) ∧
    (UserService.get_by_email
        ⟨[⟨1, "b@x", "bcrypt$pw", true, false, none⟩], [], [], [], [],
          2, 1, 1⟩
        ⟨[("user:email:a@x", ⟨1, "a@x", "bcrypt$pw", true, false, none⟩,
          100)]⟩
        60 30 "a@x").1 = some ⟨1, "a@x", "bcrypt$pw", true, false, none⟩ ∧
    UserRepo.get_by_email
      ⟨[⟨1, "b@x", "bcrypt$pw", true, false, none⟩], [], [], [], [], 2, 1, 1⟩
      "a@x" = none :=
  ⟨rfl, rfl, rfl⟩

/-! Bootstrap seed (`template/app/infrastructure/db/seeds.py`). -/

/-- The fixed baseline privilege specifications of
`seed_initial_data`. -/
def privilege_specs : List (String × String) :=
  [("users", "read"), ("users", "insert"), ("users", "update"),
   ("users", "delete"), ("users", "block"), ("users", "unblock"),
   ("users", "reset_password"),
   ("roles", "read"), ("roles", "insert"), ("roles", "update"),
   ("roles", "delete"),
   ("privileges", "read"), ("privileges", "insert"),
   ("privileges", "update"), ("privileges", "delete")]

/-- `seed_initial_data` step 1: get-or-create every baseline privilege,
collecting the rows in order. -/
def seedPrivileges (s : Store) : Except Err (Store × List Privilege) :=
  privilege_specs.foldlM
    (fun acc spec =>
      match PrivilegeRepo.get_or_create acc.1 spec.1 spec.2 none with
      | .error e => .error e
      | .ok (s2, p) => .ok (s2, acc.2 ++ [p]))
    (s, [])

/-- `seed_initial_data` step 2: unless an active role named `admin`
exists, create it as superuser and attach every baseline privilege. -/
def seedRole (s : Store) (privileges : List Privilege) :
    Except Err (Store × Nat) :=
  match RoleRepo.get_by_name s "admin" with
  | some role => .ok (s, role.id)
  | none =>
    match RoleRepo.create s "admin" none true with
    | .error e => .error e
    | .ok (sb, rid) =>
      .ok (privileges.foldl
        (fun st p => RoleRepo.attach_privilege st rid p.id) sb, rid)

/-- `seed_initial_data` step 3: unless a user with the admin email
exists, create it, assigned to the admin role when its id is truthy. -/
def seedUser (s : Store) (adminRoleId : Nat) : Except Err Store :=
  match UserRepo.get_by_email s "admin@example.com" with
  | some _ => .ok s
  | none =>
    match UserRepo.create_user s "admin@example.com" "ChangeMe123!" false
        (if adminRoleId != 0 then some [adminRoleId] else none) with
    | .error e => .error e
    | .ok (s3, _) => .ok s3

/-- `seed_initial_data`: privileges, then admin role, then admin
user. -/
def seed_initial_data (s : Store) : Except Err Store :=
  match seedPrivileges s with
  | .error e => .error e
  | .ok (s1, privileges) =>
    match seedRole s1 privileges with
    | .error e => .error e
    | .ok (s2, rid) => seedUser s2 rid

/-- The store produced by seeding the empty database. -/
def seeded : Store :=
  match seed_initial_data Store.empty with
  | .ok s => s
  | .error _ => Store.empty

/-- C8: seeding the empty store succeeds and yields exactly one role —
an active superuser role named `admin` — holding every baseline
privilege, and exactly one user (active), assigned to that role;
seeding the resulting store again returns it unchanged. -/
theorem seed_bootstrap :
    seed_initial_data Store.empty = .ok seeded ∧
    ((seeded.roles.filter fun r => r.is_superuser && r.deleted_at.isNone).map
      fun r => r.name) = ["admin"] ∧
    seeded.roles.length = 1 ∧
    (privilege_specs.all fun spec => seeded.privileges.any fun p =>
      p.resource == spec.1 && p.action == spec.2 && p.deleted_at.isNone &&
        seeded.role_privileges.contains (1, p.id)) = true ∧
    seeded.privileges.length = privilege_specs.length ∧
    ((seeded.users.filter fun u => u.deleted_at.isNone).map
      fun u => u.email) = ["admin@example.com"] ∧
    seeded.users.length = 1 ∧
    seeded.user_roles = [(1, 1)] ∧
    seed_initial_data seeded = .ok seeded :=
  ⟨rfl, rfl, rfl, rfl, rfl, rfl, rfl, rfl, rfl⟩

end Autocode
